import Mathlib

/-! gpmt packcore: a shallow embedding of `cmd/gpmt/packcore.go`.

Go strings are modelled as lists of characters (`GoString`).  The program only
searches for and cuts at ASCII characters, so positions in the list coincide
with Go's byte offsets on ASCII text; the text is assumed to be valid UTF-8.
A run-time failure of the Go program (a slice expression whose bounds are out
of range) is modelled by `none` in an `Option` result.
-/

namespace Packcore

/-- Go `string`, as the sequence of its characters. -/
abbrev GoString := List Char

deriving instance DecidableEq for Except

/-! ## `os.Stat` -/

/-- What `os.Stat(path)` returns, as far as the program looks at it: a `nil`
error (the path exists), an error for which `os.IsNotExist` holds, or any other
error (`ENOTDIR` when an element of the path is a file, `EACCES`, ...). -/
inductive StatResult where
  | ok
  | notExist
  | otherError
  deriving DecidableEq

/-- Go `os.IsNotExist(err)` for the error of an `os.Stat`. -/
def IsNotExist (r : StatResult) : Bool :=
  match r with
  | .notExist => true
  | _ => false

/-! ## The `strings` package -/

/-- Worker of `strings.Index`: the offset of the first occurrence of `sep`. -/
def indexNat (sep : GoString) : GoString → Option Nat
  | [] => if sep = [] then some 0 else none
  | c :: cs =>
    if sep.isPrefixOf (c :: cs) then some 0
    else (indexNat sep cs).map (· + 1)

/-- Go `strings.Index(s, sep)`: the offset of the first occurrence of `sep` in
`s`, or `-1` when there is none. -/
def Index (s sep : GoString) : Int :=
  match indexNat sep s with
  | some i => (i : Int)
  | none => -1

/-- Go slice expression `s[lo:hi]`; `none` is the run-time panic raised when
`0 <= lo <= hi <= len(s)` does not hold. -/
def slice (s : GoString) (lo hi : Int) : Option GoString :=
  if 0 ≤ lo ∧ lo ≤ hi ∧ hi ≤ (s.length : Int) then
    some ((s.drop lo.toNat).take (hi.toNat - lo.toNat))
  else none

/-- Go slice expression `s[lo:]`. -/
def sliceFrom (s : GoString) (lo : Int) : Option GoString :=
  slice s lo (s.length : Int)

/-- Go slice expression `s[:hi]`. -/
def sliceTo (s : GoString) (hi : Int) : Option GoString :=
  slice s 0 hi

/-- Go `strings.Split(s, sep)` for a one-character separator (the only kind
this program uses): the pieces between the separators; never empty. -/
def Split (s : GoString) (sep : Char) : List GoString :=
  match s with
  | [] => [[]]
  | c :: cs =>
    if c = sep then [] :: Split cs sep
    else
      match Split cs sep with
      | [] => [[c]]
      | p :: ps => (c :: p) :: ps

/-- Go `strings.Trim(s, cutset)`: `s` without the leading and trailing
characters that occur in `cutset`. -/
def Trim (s cutset : GoString) : GoString :=
  (s.dropWhile (fun c => decide (c ∈ cutset))).rdropWhile (fun c => decide (c ∈ cutset))

/-- Go `unicode.IsSpace`: the Unicode White_Space property. -/
def isSpace (c : Char) : Bool :=
  let n := c.toNat
  (9 ≤ n && n ≤ 13) || n = 32 || n = 0x85 || n = 0xA0 || n = 0x1680 ||
  (0x2000 ≤ n && n ≤ 0x200A) || n = 0x2028 || n = 0x2029 || n = 0x202F ||
  n = 0x205F || n = 0x3000

/-- Go `strings.TrimSpace(s)`: `s` without leading and trailing Unicode white
space. -/
def TrimSpace (s : GoString) : GoString :=
  (s.dropWhile isSpace).rdropWhile isSpace

/-- Go `strings.HasSuffix(s, suffix)`. -/
def HasSuffix (s suffix : GoString) : Bool :=
  suffix.reverse.isPrefixOf s.reverse

/-! ## The `path/filepath` package (Unix) -/

/-- One path element read by `Clean`, applied to the elements kept so far
(the last one first). Empty elements and `.` are dropped; `..` removes the
element before it when there is one that is not `..`, is kept in a path that
is not rooted, and is dropped at the root; any other element is kept. -/
def cleanStep (rooted : Bool) (stack : List GoString) (elem : GoString) : List GoString :=
  if elem = [] ∨ elem = ".".toList then stack
  else if elem = "..".toList then
    match stack with
    | top :: below =>
      if top ≠ "..".toList then below
      else if rooted then stack else elem :: stack
    | [] => if rooted then stack else [elem]
  else elem :: stack

/-- The path `Clean` writes for the elements it kept. -/
def renderPath (rooted : Bool) (stack : List GoString) : GoString :=
  if rooted then '/' :: List.intercalate ['/'] stack.reverse
  else if stack = [] then ['.']
  else List.intercalate ['/'] stack.reverse

/-- Go `filepath.Clean(path)`: the shortest path equivalent to `path` by
purely lexical processing. -/
def Clean (path : GoString) : GoString :=
  if path = [] then ['.']
  else
    let rooted := decide (path.head? = some '/')
    renderPath rooted ((Split path '/').foldl (cleanStep rooted) [])

/-- Go `filepath.Join(a, b)` (and `path.Join`): the first non-empty element
and all that follow it, joined by `/` and cleaned; empty when both are. -/
def Join (a b : GoString) : GoString :=
  if a ≠ [] then Clean (a ++ '/' :: b)
  else if b ≠ [] then Clean b
  else []

/-- Go `filepath.Dir(path)`: all but the last element of the path, cleaned. -/
def Dir (path : GoString) : GoString :=
  Clean (path.rdropWhile (fun c => c != '/'))

/-- Go `filepath.Base(path)` (and `path.Base`): the last element of the path,
without trailing slashes. -/
def Base (path : GoString) : GoString :=
  if path = [] then ['.']
  else
    let stripped := path.rdropWhile (fun c => c == '/')
    let last := stripped.rtakeWhile (fun c => c != '/')
    if last = [] then ['/'] else last

/-- A path element that `Clean` keeps as it is: not empty, without a slash,
and neither `.` nor `..`. -/
def IsElem (x : GoString) : Prop :=
  x ≠ [] ∧ '/' ∉ x ∧ x ≠ ".".toList ∧ x ≠ "..".toList

/-- The shape of the elements `Clean` has kept at any time (the last one
first): ordinary elements, and below them, in a path that is not rooted, the
leading `..` elements. -/
def ValidStack (rooted : Bool) (stack : List GoString) : Prop :=
  ∃ names dots, stack = names ++ dots ∧ (∀ x ∈ names, IsElem x) ∧
    (∀ x ∈ dots, x = "..".toList) ∧ (rooted = true → dots = [])

/-- Whether, reading the elements of a rooted path with `depth` ordinary
elements already kept, some `..` finds no ordinary element left to remove, and
so would climb above the root. -/
def climbs : Nat → List GoString → Bool
  | _, [] => false
  | depth, e :: rest =>
    if e = [] ∨ e = ".".toList then climbs depth rest
    else if e = "..".toList then
      match depth with
      | 0 => true
      | d + 1 => climbs d rest
    else climbs (depth + 1) rest

/-! ## `findBinary` -/

/-- The single quote character. -/
def quote : Char := Char.ofNat 39

/-- The two slice bounds `start` and `end` computed at the top of
`findBinary`: `start := strings.Index(s, "'") + 1` and
`end := strings.Index(s[start:], "'") + start`; `none` when `s[start:]`
panics. -/
def findBinaryBounds (fileCmdOutput : GoString) : Option (Int × Int) :=
  let start := Index fileCmdOutput [quote] + 1
  match sliceFrom fileCmdOutput start with
  | none => none
  | some tail => some (start, Index tail [quote] + start)

/-- The binary name `cmd` that `findBinary` hands to `exec.LookPath`; `none`
when one of the slice expressions panics. -/
def findBinaryName (fileCmdOutput : GoString) : Option GoString :=
  match findBinaryBounds fileCmdOutput with
  | none => none
  | some (start, stop) =>
    match slice fileCmdOutput start stop with
    | none => none
    | some seg =>
      let cmd := (Split seg ' ').headD []
      let cmd := Trim cmd "\n ".toList
      if HasSuffix cmd ":".toList then sliceTo cmd ((cmd.length : Int) - 1)
      else some cmd

/-- `findBinary(fileCmdOutput)`; `lookPath` stands for `exec.LookPath` (the
resolved path, or `none` for its error). The result is `Except.ok ret` for
`(ret, nil)` and `Except.error msg` for `("", errors.New(msg))`. -/
def findBinary (lookPath : GoString → Option GoString) (fileCmdOutput : GoString) :
    Option (Except GoString GoString) :=
  match findBinaryName fileCmdOutput with
  | none => none
  | some cmd =>
    match lookPath cmd with
    | some ret => some (Except.ok ret)
    | none => some (Except.error ("Unable to find binary name ".toList ++ cmd ++ "\n".toList))


/-- The name `findBinary` is specified to look up, written without offsets:
the text between the first and the second single quote, cut at its first
space, trimmed of newlines and spaces, without one trailing colon. -/
def quotedText (s : GoString) : GoString :=
  ((s.dropWhile (fun c => c != quote)).drop 1).takeWhile (fun c => c != quote)

/-- The first space-separated word of a text. -/
def firstWord (t : GoString) : GoString :=
  t.takeWhile (fun c => c != ' ')

/-- A text without one trailing colon. -/
def dropTrailingColon (t : GoString) : GoString :=
  if t.getLast? = some ':' then t.dropLast else t

/-- The binary name read off a file-identification string, as the
specification words it. -/
def binaryNameSpec (s : GoString) : GoString :=
  dropTrailingColon (Trim (firstWord (quotedText s)) "\n ".toList)

/-! ## `collect_core` -/

/-- Go `isCore(fileOutput)`. -/
def isCore (fileOutput : GoString) : Bool :=
  if Index fileOutput "LSB core file".toList = -1 then false else true

/-- What `collect_core` reads from its surroundings. `stat` is `os.Stat`;
`abs` is `filepath.Abs`; `fileInfo` is `getFileInfo`
(the output of `/usr/bin/file`, or its error); `lookPath` is `exec.LookPath`;
`packCoreFile coreFile binary` is the error `packCoreFile` returns (`none`
for `nil`). -/
structure CoreWorld where
  stat : GoString → StatResult
  abs : GoString → Except GoString GoString
  fileInfo : GoString → Except GoString GoString
  lookPath : GoString → Option GoString
  packCoreFile : GoString → GoString → Option GoString

/-- The local `fileCmdOutput` of `collect_core`: the output of `getFileInfo`
(the empty string when it failed, the failure being only logged) trimmed of
newlines and spaces. -/
def fileCmdOutputOf (w : CoreWorld) (coreFile : GoString) : GoString :=
  let fileInfo : GoString :=
    match w.fileInfo coreFile with
    | .ok out => out
    | .error _ => []
  Trim fileInfo "\n ".toList

/-- How a call of `collect_core` ends: it returned an error of its own
without calling `packCoreFile`, or it called `packCoreFile coreFile binary` and
returned what that call returned. -/
inductive CollectResult where
  | failed (msg : GoString)
  | packed (coreFile binary : GoString) (err : Option GoString)
  deriving DecidableEq

/-- Go `collect_core()`, with the flags `*core` and `*binary` as arguments.
`log.Errorf` only writes a log line. `none` is a run-time panic (raised inside
`findBinary`). -/
def collect_core (w : CoreWorld) (core binary : GoString) : Option CollectResult :=
  if core = [] then some (.failed "No core file specified".toList)
  else if IsNotExist (w.stat core) then
    some (.failed ("Corefile \x27".toList ++ core ++ "\x27 does not exist".toList))
  else
    match w.abs core with
    | .error e =>
      some (.failed ("Could not determine absolute path for ".toList ++ core ++ ": ".toList ++ e))
    | .ok coreFile =>
      let fileCmdOutput := fileCmdOutputOf w coreFile
      if isCore fileCmdOutput = false then
        some (.failed "File does not appear to be a core".toList)
      else if binary ≠ [] then
        match w.lookPath binary with
        | none => some (.failed "Unable to find binary specified on command line".toList)
        | some b => some (.packed coreFile b (w.packCoreFile coreFile b))
      else
        match findBinary w.lookPath fileCmdOutput with
        | none => none
        | some (.error _) => some (.packed coreFile [] (w.packCoreFile coreFile []))
        | some (.ok b) => some (.packed coreFile b (w.packCoreFile coreFile b))

/-! ## The library resolvers -/

/-- The class `\s` of Go's `regexp` package: tab, newline, form feed,
carriage return and space. Its complement is `\S`. -/
def reSpace (c : Char) : Bool :=
  c = '\t' || c = '\n' || c = Char.ofNat 12 || c = '\r' || c = ' '

/-- The pattern `=> (\S+)\s+` tried at the very start of `s`: the token that
`(\S+)` takes and the white space that `\s+` takes. Both are greedy, and the
two classes are complementary, so the only way to match is the longest run of
each. -/
def arrowHere (s : GoString) : Option (GoString × GoString) :=
  if "=> ".toList.isPrefixOf s then
    let rest := s.drop 3
    let tok := rest.takeWhile (fun c => !reSpace c)
    let ws := (rest.dropWhile (fun c => !reSpace c)).takeWhile reSpace
    if tok ≠ [] ∧ ws ≠ [] then some (tok, ws) else none
  else none

/-- The leftmost match of `=> (\S+)\s+` in a line: the text before the match,
the token and the white space after it. -/
def arrowSearch : GoString → Option (GoString × GoString × GoString)
  | [] => none
  | c :: cs =>
    match arrowHere (c :: cs) with
    | some (tok, ws) => some ([], tok, ws)
    | none =>
      match arrowSearch cs with
      | some (pre, tok, ws) => some (c :: pre, tok, ws)
      | none => none

/-- Go `re.FindString(line)` for `re = regexp.MustCompile("=> (\\S+)\\s+")`:
the text of the leftmost match, or the empty string. -/
def FindStringArrow (line : GoString) : GoString :=
  match arrowSearch line with
  | some (_, tok, ws) => "=> ".toList ++ tok ++ ws
  | none => []

/-- The two lists the parsing loops of the resolvers build. -/
structure Scan where
  libraries : List GoString
  missingLibraries : List GoString
  deriving DecidableEq

/-- What a resolver returns: `([]byte, []string, error)`, with `none` for
`nil`. -/
structure Resolved where
  output : Option GoString
  libraries : Option (List GoString)
  err : Option GoString
  deriving DecidableEq

/-- What `cmd.Output()` returns: the standard output and the error. -/
structure CmdOutput where
  out : GoString
  err : Option GoString

/-- The seed set `static_libraries` of `getLibraryListWithLDD`. -/
def static_libraries : List GoString :=
  ["/lib64/libgcc_s.so.1".toList, "/lib64/libnss_files.so.2".toList,
   "/lib/libgcc_s.so.1".toList, "/lib/libnss_files.so.2".toList]

/-- The first loop of `getLibraryListWithLDD`: the seeds for which `os.Stat`
succeeds, appended one by one. -/
def seedLibraries (stat : GoString → Bool) : List GoString :=
  static_libraries.foldl (fun libraries lib => if stat lib then libraries ++ [lib] else libraries) []

/-- One turn of the parsing loop of `getLibraryListWithLDD`; `none` when
`match[3:]` or `line[:index]` panics. -/
def lddLoopBody (st : Scan) (line : GoString) : Option Scan :=
  let m := TrimSpace (FindStringArrow line)
  if m = [] then some st
  else
    match sliceFrom m 3 with
    | none => none
    | some m =>
      if m = "not".toList then
        let index := Index line " =>".toList
        match sliceTo line index with
        | none => none
        | some name =>
          some { st with missingLibraries := st.missingLibraries ++ [TrimSpace name] }
      else if m = [] then some st
      else some { st with libraries := st.libraries ++ [m] }

/-- The parsing loop of `getLibraryListWithLDD` over the lines. -/
def lddLoop : List GoString → Scan → Option Scan
  | [], st => some st
  | line :: rest, st =>
    match lddLoopBody st line with
    | none => none
    | some st => lddLoop rest st

/-- The lists `libraries` and `missingLibraries` of `getLibraryListWithLDD`
after its two loops, for the output `out` of a successful `ldd`. -/
def lddScan (stat : GoString → Bool) (out : GoString) : Option Scan :=
  lddLoop (Split out '\n') ⟨seedLibraries stat, []⟩

/-- The text `errString` both resolvers build from the missing libraries. -/
def missingErrString (missingLibraries : List GoString) : GoString :=
  missingLibraries.foldl (fun errString lib => errString ++ ("    ".toList ++ lib ++ "\n".toList))
    "Unable to find libraries: \n".toList

/-- The end of both resolvers (the same statements in each): the policy on
missing libraries and the final `return`. -/
def missingPolicy (ignore_missing : Bool) (output : GoString) (st : Scan) : Resolved :=
  if st.missingLibraries.length > 0 then
    let errString := missingErrString st.missingLibraries
    if ignore_missing then ⟨some output, some st.libraries, none⟩
    else
      ⟨none, none, some (errString ++
        "\nPlease check environment or run with \x27-ignore_missing\x27 flag\n".toList)⟩
  else ⟨some output, some st.libraries, none⟩

/-- Go `getLibraryListWithLDD(binary)`: `stat lib` says that `os.Stat(lib)`
returned a `nil` error (the program tests `err == nil`), `ignore_missing` is
the flag, `ldd` what running `ldd binary` gave. `none` is a run-time panic. -/
def getLibraryListWithLDD (stat : GoString → Bool) (ignore_missing : Bool) (ldd : CmdOutput) :
    Option Resolved :=
  match ldd.err with
  | some err => some ⟨some ldd.out, some [], some err⟩
  | none =>
    match lddScan stat ldd.out with
    | none => none
    | some st => some (missingPolicy ignore_missing ldd.out st)

/-- The class `[0-9a-f]`. -/
def isLowerHex (c : Char) : Bool :=
  ('0'.toNat ≤ c.toNat && c.toNat ≤ '9'.toNat) || ('a'.toNat ≤ c.toNat && c.toNat ≤ 'f'.toNat)

/-- The text after the last white-space character that is followed by `/`. -/
def lastSpaceSlash : GoString → Option GoString
  | [] => none
  | c :: rest =>
    match lastSpaceSlash rest with
    | some g => some g
    | none => if reSpace c ∧ rest.head? = some '/' then some rest else none

/-- Go `re.FindStringSubmatch(line)[1]` for
`re = regexp.MustCompile("^0x[0-9a-f]+.*\\s(/.*$)")`, `none` when the line does
not match: the line starts with `0x` and a hexadecimal digit, and the greedy
`.*` leaves for the group the text after the last white space followed by
`/`. -/
def gdbSubmatch (line : GoString) : Option GoString :=
  match line with
  | a :: b :: h :: rest =>
    if a = '0' ∧ b = 'x' ∧ isLowerHex h = true then lastSpaceSlash rest else none
  | _ => none

/-- One turn of the parsing loop of `getLibraryListWithGDB`. -/
def gdbLoopBody (stat : GoString → Bool) (st : Scan) (line : GoString) : Scan :=
  match gdbSubmatch line with
  | none => st
  | some lib =>
    if stat lib then { st with libraries := st.libraries ++ [lib] }
    else { st with missingLibraries := st.missingLibraries ++ [lib] }

/-- The lists `libraries` and `missingLibraries` of `getLibraryListWithGDB`
after its loop, for the output `out` of a successful `gdb`. -/
def gdbScan (stat : GoString → Bool) (out : GoString) : Scan :=
  (Split out '\n').foldl (gdbLoopBody stat) ⟨[], []⟩

/-- Go `getLibraryListWithGDB(coreFile, binary)`: `stat lib` says that
`os.Stat(lib)` returned a `nil` error (the program tests `err == nil`), `gdb`
is what running `gdb --batch --ex "info sharedlibrary" binary coreFile`
gave. -/
def getLibraryListWithGDB (stat : GoString → Bool) (ignore_missing : Bool) (gdb : CmdOutput) :
    Resolved :=
  match gdb.err with
  | some err => ⟨some gdb.out, some [], some err⟩
  | none => missingPolicy ignore_missing gdb.out (gdbScan stat gdb.out)

/-- The arrow target of a line, as the specification words it: the
non-space token after the leftmost `=> ` that is followed by white space, when
it is not the marker `not`. -/
def resolvedTarget (line : GoString) : Option GoString :=
  match arrowSearch line with
  | some (_, tok, _) => if tok = "not".toList then none else some tok
  | none => none

/-- The requested library name of a line whose arrow target is `not`, as the
specification words it: the text before the arrow, trimmed of white space. -/
def missingName (line : GoString) : Option GoString :=
  match arrowSearch line with
  | some (pre, tok, _) => if tok = "not".toList then some (TrimSpace pre) else none
  | none => none

/-- The lines on which the code and the specification agree: the target
does not end in a Unicode space character (a vertical tab, a no-break
space: characters that `\S` accepts and `strings.TrimSpace` removes), and on a
line whose target is `not` the matched arrow has a blank before it and that
` =>` is the first one of the line. -/
def arrowWellFormed (line : GoString) : Bool :=
  match arrowSearch line with
  | none => true
  | some (pre, tok, _) =>
    (match tok.getLast? with
      | some c => !isSpace c
      | none => true) &&
    (tok != "not".toList ||
      (decide (0 < pre.length) && decide (Index line " =>".toList + 1 = (pre.length : Int))))

/-- The hint that ends the error of a resolver. -/
def ignoreMissingHint : GoString :=
  "\nPlease check environment or run with \x27-ignore_missing\x27 flag\n".toList

/-- The error text of a resolver as the specification describes it: a
heading, every missing library on a line of its own in the order found, and
the hint. -/
def missingReport (missing : List GoString) : GoString :=
  "Unable to find libraries: \n".toList ++
    (missing.map (fun lib => "    ".toList ++ lib ++ "\n".toList)).flatten ++ ignoreMissingHint

/-- What one line of `ldd` output adds to the two lists (`none` when the
turn of the loop panics). -/
def lddLineAdds (line : GoString) : Option Scan :=
  lddLoopBody ⟨[], []⟩ line

/-- The targets one line of `ldd` output adds to `libraries`. -/
def lddLineLibraries (line : GoString) : List GoString :=
  match lddLineAdds line with
  | some d => d.libraries
  | none => []

/-- The names one line of `ldd` output adds to `missingLibraries`. -/
def lddLineMissing (line : GoString) : List GoString :=
  match lddLineAdds line with
  | some d => d.missingLibraries
  | none => []

/-- An `ldd` output in which a library is reported missing under the very path
another line resolves to. -/
def lddClash : GoString :=
  "\tliba.so.1 => /opt/lib/libb.so (0x00007f)\n\t/opt/lib/libb.so => not found\n".toList

/-- The line of `ldd` from the specification, and a whole output. -/
def lddSample : GoString :=
  "\tlinux-vdso.so.1 (0x00007ffc)\n\tlibc.so.6 => /lib64/libc.so.6 (0x00007f)\n\tlibfoo.so.1 => not found\n\t/lib64/ld-linux-x86-64.so.2 (0x00007f1)\n".toList

/-- A sample of `info sharedlibrary` output. -/
def gdbSample : GoString :=
  "From                To                  Syms Read   Shared Object Library\n0x00007f1 0x00007f2 Yes         /lib64/libc.so.6\n0x00007f3 0x00007f4 Yes (*)     /lib64/libm.so.6\n".toList

/-! ## Copying and checking the package -/

/-- The command `cp filename dest` that `copyFile` runs. -/
structure CopyCommand where
  filename : GoString
  dest : GoString
  deriving DecidableEq

/-- Go `copyFilePath(src, dst)`, up to the `cp` it runs through `copyFile`
(before that it creates the directory `dstDir`); `none` when `srcDir[1:]`
panics. -/
def copyFilePath (src dst : GoString) : Option CopyCommand :=
  let srcDir := Dir src
  let srcDir := if Index srcDir "/".toList = -1 then sliceFrom srcDir 1 else some srcDir
  match srcDir with
  | none => none
  | some srcDir =>
    let dstDir := Join dst srcDir
    some ⟨Trim src "\n ".toList, dstDir⟩

/-- Where `cp filename dest` puts the copy when `dest` is a directory. -/
def copiedPath (c : CopyCommand) : GoString :=
  Join c.dest (Base c.filename)

/-- The path `checkPackageContents` tests for a library. -/
def libraryLocation (packdir lib : GoString) : GoString :=
  Join packdir (TrimSpace lib)

/-- Go `checkPackageContents(packdir, coreFile, binary, libraries)`: the
message of the returned error, `none` for `nil`. `stat` is `os.Stat`; every
test of the function is `os.IsNotExist(err)`. -/
def checkPackageContents (stat : GoString → StatResult) (packdir coreFile binary : GoString)
    (libraries : List GoString) : Option GoString :=
  if IsNotExist (stat packdir) then
    some ("Missing packcore directory: ".toList ++ packdir ++ "\n".toList)
  else if coreFile ≠ [] ∧ IsNotExist (stat (Join packdir (Base coreFile))) = true then
    some ("Failed to copy corefile \x27".toList ++ coreFile ++ "\x27\n".toList)
  else if IsNotExist (stat (Join packdir (Base binary))) then
    some ("Failed to copy binrary \x27".toList ++ binary ++ "\x27\n".toList)
  else
    let missingLibraries := libraries.foldl
      (fun missing lib => if IsNotExist (stat (libraryLocation packdir lib)) then missing ++ [lib]
        else missing) []
    if missingLibraries.length > 0 then
      let errString := missingLibraries.foldl
        (fun errString lib => errString ++ ("\t".toList ++ lib ++ "\n".toList)) []
      some ("Missing Libraries!\n".toList ++ errString)
    else if IsNotExist (stat (Join packdir "ldd_output".toList)) = true ∧
        IsNotExist (stat (Join packdir "gdb_output".toList)) = true then
      some "Missing \x27gdb_output\x27 or \x27ldd_output\x27".toList
    else if IsNotExist (stat (Join packdir "runGDB.sh".toList)) then
      some "Failed to create \x27runGDB.sh\x27".toList
    else none

/-- The checks of the package in the order of the specification, each with
the error that belongs to it: the condition that must hold, and the message
reported when it does not. `present p` says that the path `p` exists. -/
def referenceChecks (present : GoString → Bool) (packdir coreFile binary : GoString)
    (libraries : List GoString) : List (Bool × GoString) :=
  [ (present packdir, "Missing packcore directory: ".toList ++ packdir ++ "\n".toList),
    (decide (coreFile = []) || present (Join packdir (Base coreFile)),
      "Failed to copy corefile \x27".toList ++ coreFile ++ "\x27\n".toList),
    (present (Join packdir (Base binary)),
      "Failed to copy binrary \x27".toList ++ binary ++ "\x27\n".toList),
    (libraries.all (fun lib => present (Join packdir (TrimSpace lib))),
      "Missing Libraries!\n".toList ++
        ((libraries.filter (fun lib => !present (Join packdir (TrimSpace lib)))).map
          (fun lib => "\t".toList ++ lib ++ "\n".toList)).flatten),
    (present (Join packdir "ldd_output".toList) || present (Join packdir "gdb_output".toList),
      "Missing \x27gdb_output\x27 or \x27ldd_output\x27".toList),
    (present (Join packdir "runGDB.sh".toList), "Failed to create \x27runGDB.sh\x27".toList) ]

/-- The error of the first check that fails, `none` when all hold. -/
def firstFailure : List (Bool × GoString) → Option GoString
  | [] => none
  | (ok, msg) :: rest => if ok then firstFailure rest else some msg

/-- The paths `checkPackageContents` may hand to `os.Stat`. -/
def checkedPaths (packdir coreFile binary : GoString) (libraries : List GoString) :
    List GoString :=
  [packdir] ++ (if coreFile = [] then [] else [Join packdir (Base coreFile)]) ++
    [Join packdir (Base binary)] ++ libraries.map (fun lib => Join packdir (TrimSpace lib)) ++
    [Join packdir "ldd_output".toList, Join packdir "gdb_output".toList,
      Join packdir "runGDB.sh".toList]

/-- The path exists: `os.Stat` returns a `nil` error. -/
def pathExists (stat : GoString → StatResult) (p : GoString) : Bool :=
  decide (stat p = .ok)

/-- Five libraries, and a staging directory that lacks the second and the
fourth of them and holds all the rest of a package. -/
def fiveLibraries : List GoString :=
  ["/lib64/libc.so.6".toList, "/lib64/libm.so.6".toList, "/lib64/libdl.so.2".toList,
   "/usr/lib64/libfoo.so.1".toList, "/lib64/libpthread.so.0".toList]

/-- The staging directory `pc` without `libm.so.6` and `libfoo.so.1`. -/
def twoAbsent (p : GoString) : StatResult :=
  if p ∈ ["pc".toList, "pc/core.1".toList, "pc/postgres".toList,
    "pc/lib64/libc.so.6".toList, "pc/lib64/libdl.so.2".toList,
    "pc/lib64/libpthread.so.0".toList, "pc/gdb_output".toList, "pc/runGDB.sh".toList]
  then .ok else .notExist

/-- A complete staging directory `pc` for the core `core.1`, the binary
`postgres` and the five libraries. -/
def fullStaging (p : GoString) : StatResult :=
  if p ∈ ["pc".toList, "pc/core.1".toList, "pc/postgres".toList,
    "pc/lib64/libc.so.6".toList, "pc/lib64/libm.so.6".toList, "pc/lib64/libdl.so.2".toList,
    "pc/usr/lib64/libfoo.so.1".toList, "pc/lib64/libpthread.so.0".toList,
    "pc/gdb_output".toList, "pc/runGDB.sh".toList]
  then .ok else .notExist

/-- A staging directory `pc` that holds the core file, the binary
`pc/postgres`, `gdb_output` and `runGDB.sh` and no library. The binary is a
file, so `os.Stat` of a path below `pc/postgres` fails with `ENOTDIR`, an error
for which `os.IsNotExist` does not hold. -/
def fileInTheWay (p : GoString) : StatResult :=
  if p ∈ ["pc".toList, "pc/core.1".toList, "pc/postgres".toList, "pc/gdb_output".toList,
    "pc/runGDB.sh".toList]
  then .ok
  else if "pc/postgres/".toList.isPrefixOf p then .otherError
  else .notExist

/-! ## The environment variables around `gdb` -/

/-- The environment of the process: the value of every variable that is
set. -/
abbrev Env := GoString → Option GoString

/-- Go `os.Getenv(key)`: the value, or the empty string when the variable is
not set. -/
def Getenv (env : Env) (key : GoString) : GoString :=
  match env key with
  | some value => value
  | none => []

/-- Go `os.Unsetenv(key)`; on Unix it always returns `nil`. -/
def Unsetenv (env : Env) (key : GoString) : Env :=
  fun k => if k = key then none else env k

/-- Go `os.Setenv(key, value)`: it fails for an empty key, a key with `=` or
a NUL character and a value with a NUL character. -/
def Setenv (env : Env) (key value : GoString) : Except GoString Env :=
  if key = [] ∨ '=' ∈ key ∨ Char.ofNat 0 ∈ key ∨ Char.ofNat 0 ∈ value then
    .error "setenv: invalid argument".toList
  else .ok (fun k => if k = key then some value else env k)

/-- The state `setGDBEnv` and `unsetGDBEnv` work on: the environment and the
four package variables that store the old values. -/
structure Proc where
  env : Env
  backupLDPath : GoString
  backupPythonHome : GoString
  backupPythonPath : GoString
  backupPath : GoString

/-- Go `setGDBEnv()`: the state it leaves and the error it returns. The
`os.Unsetenv` calls cannot fail. -/
def setGDBEnv (p : Proc) : Proc × Option GoString :=
  let p := { p with backupLDPath := Getenv p.env "LD_LIBRARY_PATH".toList }
  let p := { p with env := Unsetenv p.env "LD_LIBRARY_PATH".toList }
  let p := { p with backupPythonHome := Getenv p.env "PYTHONHOME".toList }
  let p := { p with env := Unsetenv p.env "PYTHONHOME".toList }
  let p := { p with backupPythonPath := Getenv p.env "PYTHONPATH".toList }
  let p := { p with env := Unsetenv p.env "PYTHONPATH".toList }
  let p := { p with backupPath := Getenv p.env "PATH".toList }
  match Setenv p.env "PATH".toList ("/usr/bin:".toList ++ p.backupPath) with
  | .error oserr => (p, some oserr)
  | .ok env => ({ p with env := env }, none)

/-- Go `unsetGDBEnv()`: the state it leaves and the error it returns. -/
def unsetGDBEnv (p : Proc) : Proc × Option GoString :=
  match Setenv p.env "LD_LIBRARY_PATH".toList p.backupLDPath with
  | .error oserr => (p, some oserr)
  | .ok env =>
    let p := { p with env := env }
    match Setenv p.env "PYTHONHOME".toList p.backupPythonHome with
    | .error oserr => (p, some oserr)
    | .ok env =>
      let p := { p with env := env }
      match Setenv p.env "PYTHONPATH".toList p.backupPythonPath with
      | .error oserr => (p, some oserr)
      | .ok env =>
        let p := { p with env := env }
        match Setenv p.env "PATH".toList p.backupPath with
        | .error oserr => (p, some oserr)
        | .ok env => ({ p with env := env }, none)

/-! ## The `gdb` case of `packCoreFile` -/

/-- How the `switch` of `packCoreFile` is left: by a `return err`, or by
going on to the statements after it with the resolved `libraries`. -/
inductive SwitchExit where
  | returned (err : GoString)
  | goesOn (libraries : List GoString)
  deriving DecidableEq

/-- A run of the case `usegdb` of `packCoreFile`: the state of the process
when the case is left, how many times `unsetGDBEnv` was called, and how the
case is left. -/
structure GdbCaseRun where
  proc : Proc
  restores : Nat
  exit : SwitchExit

/-- The case `usegdb` of the `switch` in `packCoreFile`. `gdb` is what
running `gdb` gives, `writeErr` the error of `ioutil.WriteFile` for
`gdb_output` (`none` for `nil`). -/
def packCoreFileGdbCase (stat : GoString → Bool) (ignore_missing : Bool) (packDir : GoString)
    (gdb : CmdOutput) (writeErr : Option GoString) (p : Proc) : GdbCaseRun :=
  match setGDBEnv p with
  | (p, some err) => ⟨p, 0, .returned err⟩
  | (p, none) =>
    let r := getLibraryListWithGDB stat ignore_missing gdb
    match r.err with
    | some err => ⟨(unsetGDBEnv p).1, 1, .returned err⟩
    | none =>
      match writeErr with
      | some _ =>
        ⟨p, 0, .returned ("Failed to write file ".toList ++ Join packDir "gcc_output".toList ++
          " (GDB command output)\n".toList)⟩
      | none =>
        match unsetGDBEnv p with
        | (p, some err) => ⟨p, 1, .returned err⟩
        | (p, none) => ⟨p, 1, .goesOn (r.libraries.getD [])⟩

/-- An environment with `PATH`, `LD_LIBRARY_PATH` and `HOME` set, and
`PYTHONHOME` and `PYTHONPATH` not set. -/
def sampleEnv : Env := fun k =>
  if k = "PATH".toList then some "/usr/local/bin:/usr/bin:/bin".toList
  else if k = "LD_LIBRARY_PATH".toList then some "/usr/local/greenplum-db/lib".toList
  else if k = "HOME".toList then some "/home/gpadmin".toList
  else none

/-- The process at the start of `packCoreFile`: the package variables hold
their zero value. -/
def sampleProc : Proc := ⟨sampleEnv, [], [], [], []⟩

/-- A staging directory `pc` that holds the core file, `gdb_output` and
`runGDB.sh`, and no binary. -/
def noBinaryStaging (p : GoString) : StatResult :=
  if p ∈ ["pc".toList, "pc/core.1234".toList, "pc/gdb_output".toList,
    "pc/runGDB.sh".toList]
  then .ok else .notExist

/-- A file-identification string of a core dump written by `postgres`. -/
def postgresCore : GoString :=
  "/tmp/core.1234: ELF 64-bit LSB core file x86-64, version 1 (SYSV), SVR4-style, from \x27postgres\x27".toList

/-- A file-identification string whose quoted command line has arguments. -/
def postgresArgsCore : GoString :=
  "/tmp/core.1234: ELF 64-bit LSB core file x86-64, from \x27postgres: user db [local] idle\x27".toList

/-- A file-identification string of a core dump without a `from` clause. -/
def unquotedCore : GoString :=
  "/tmp/core.1234: ELF 64-bit LSB core file x86-64, version 1 (SYSV), SVR4-style".toList

/-- A machine on which every path exists, `/usr/bin/file` prints `out`, the
search path resolves `postgres` to `/usr/bin/postgres`, and `packCoreFile`
returns `nil`. -/
def postgresOnPath (out : GoString) : CoreWorld where
  stat := fun _ => .ok
  abs := fun p => .ok p
  fileInfo := fun _ => .ok out
  lookPath := fun n => if n = "postgres".toList then some "/usr/bin/postgres".toList else none
  packCoreFile := fun _ _ => none

/-- A machine on which every path exists, `/usr/bin/file` prints `out`, the
search path resolves no name at all, and `packCoreFile` returns `nil`. -/
def nothingOnPath (out : GoString) : CoreWorld where
  stat := fun _ => .ok
  abs := fun p => .ok p
  fileInfo := fun _ => .ok out
  lookPath := fun _ => none
  packCoreFile := fun _ _ => none

/-! # Theorems -/

/-! ## Lemmas on the string primitives -/

theorem indexNat_singleton_of_not_mem (q : Char) (s : GoString) (h : q ∉ s) :
    indexNat [q] s = none := by
  induction s with
  | nil => simp [indexNat]
  | cons c cs ih =>
    have hc : q ≠ c := fun e => h (by simp [e])
    have hcs : q ∉ cs := fun e => h (List.mem_cons_of_mem _ e)
    simp [indexNat, List.isPrefixOf, hc, ih hcs]

theorem indexNat_singleton_append (q : Char) (pre post : GoString) (h : q ∉ pre) :
    indexNat [q] (pre ++ q :: post) = some pre.length := by
  induction pre with
  | nil => simp [indexNat, List.isPrefixOf]
  | cons c cs ih =>
    have hc : q ≠ c := fun e => h (by simp [e])
    have hcs : q ∉ cs := fun e => h (List.mem_cons_of_mem _ e)
    simp [indexNat, List.isPrefixOf, hc, ih hcs]

theorem Index_singleton_of_not_mem (q : Char) (s : GoString) (h : q ∉ s) :
    Index s [q] = -1 := by
  simp [Index, indexNat_singleton_of_not_mem q s h]

theorem Index_singleton_append (q : Char) (pre post : GoString) (h : q ∉ pre) :
    Index (pre ++ q :: post) [q] = (pre.length : Int) := by
  simp [Index, indexNat_singleton_append q pre post h]


/-- Every text has no quote, exactly one quote, or a first and a second quote. -/
theorem quote_cases (q : Char) (s : GoString) :
    q ∉ s ∨ (∃ pre post, s = pre ++ q :: post ∧ q ∉ pre ∧ q ∉ post) ∨
    (∃ pre mid post, s = pre ++ q :: (mid ++ q :: post) ∧ q ∉ pre ∧ q ∉ mid) := by
  by_cases h : q ∈ s
  · obtain ⟨pre, post, rfl, hpre⟩ := List.eq_append_cons_of_mem h
    by_cases h2 : q ∈ post
    · obtain ⟨mid, post2, rfl, hmid⟩ := List.eq_append_cons_of_mem h2
      exact Or.inr (Or.inr ⟨pre, mid, post2, rfl, hpre, hmid⟩)
    · exact Or.inr (Or.inl ⟨pre, post, rfl, hpre, h2⟩)
  · exact Or.inl h

theorem slice_append_mid (pre mid post : GoString) :
    slice (pre ++ (mid ++ post)) (pre.length : Int) ((mid.length : Int) + (pre.length : Int)) =
      some mid := by
  have h : (0 : Int) ≤ pre.length ∧ (pre.length : Int) ≤ mid.length + pre.length ∧
      (mid.length : Int) + pre.length ≤ ((pre ++ (mid ++ post)).length : Int) := by
    simp only [List.length_append, Nat.cast_add]; omega
  have e1 : ((mid.length : Int) + (pre.length : Int)).toNat - pre.length = mid.length := by omega
  simp only [slice, h, and_self, if_true, Int.toNat_ofNat, e1]
  simp

theorem sliceFrom_append (pre post : GoString) :
    sliceFrom (pre ++ post) (pre.length : Int) = some post := by
  have h := slice_append_mid pre post []
  simp only [List.append_nil] at h
  unfold sliceFrom
  rw [show (((pre ++ post).length : Nat) : Int) = (post.length : Int) + (pre.length : Int) by
    simp only [List.length_append, Nat.cast_add]; omega]
  exact h

theorem sliceTo_dropLast (s : GoString) (h : s ≠ []) :
    sliceTo s ((s.length : Int) - 1) = some s.dropLast := by
  have hl : 0 < s.length := List.length_pos.mpr h
  have hc : (0 : Int) ≤ 0 ∧ (0 : Int) ≤ (s.length : Int) - 1 ∧
      (s.length : Int) - 1 ≤ (s.length : Int) := by omega
  have e : ((s.length : Int) - 1).toNat = s.length - 1 := by omega
  simp only [sliceTo, slice, hc, and_self, if_true, e]
  simp [List.dropLast_eq_take]

theorem slice_none_of_lt (s : GoString) (lo hi : Int) (h : hi < lo) : slice s lo hi = none := by
  have : ¬ (0 ≤ lo ∧ lo ≤ hi ∧ hi ≤ (s.length : Int)) := by omega
  simp [slice, this]

theorem Split_head (t : GoString) (sep : Char) :
    (Split t sep).headD [] = t.takeWhile (fun c => c != sep) := by
  induction t with
  | nil => simp [Split]
  | cons c cs ih =>
    by_cases h : c = sep
    · simp [Split, h]
    · simp only [Split, h, if_false]
      cases hs : Split cs sep with
      | nil => 
        rw [hs] at ih
        simp [List.takeWhile_cons, h] at ih ⊢
        exact ih
      | cons p ps =>
        rw [hs] at ih
        simp [List.takeWhile_cons, h] at ih ⊢
        exact ih

theorem HasSuffix_singleton (s : GoString) (c : Char) :
    HasSuffix s [c] = true ↔ s.getLast? = some c := by
  unfold HasSuffix
  rw [List.getLast?_eq_head?_reverse]
  cases s.reverse with
  | nil => simp [List.isPrefixOf]
  | cons a as =>
    simp only [List.reverse_cons, List.reverse_nil, List.nil_append, List.isPrefixOf,
      Bool.and_true, beq_iff_eq, List.head?_cons, Option.some.injEq]
    exact eq_comm

theorem quotedText_two (pre mid post : GoString) (h1 : quote ∉ pre) (h2 : quote ∉ mid) :
    quotedText (pre ++ quote :: (mid ++ quote :: post)) = mid := by
  unfold quotedText
  have hp : ∀ a ∈ pre, (a != quote) = true := by
    intro a ha; simp only [bne_iff_ne]; rintro rfl; exact h1 ha
  have hm : ∀ a ∈ mid, (a != quote) = true := by
    intro a ha; simp only [bne_iff_ne]; rintro rfl; exact h2 ha
  rw [List.dropWhile_append_of_pos hp, List.dropWhile_cons_of_neg (by simp)]
  simp only [List.drop_succ_cons, List.drop_zero]
  rw [List.takeWhile_append_of_pos hm, List.takeWhile_cons_of_neg (by simp)]
  simp


theorem findBinaryBounds_none (s : GoString) (h : quote ∉ s) :
    findBinaryBounds s = some (0, -1) := by
  have h0 : sliceFrom s (0 : Int) = some s := by
    have := sliceFrom_append [] s
    simpa using this
  simp only [findBinaryBounds, Index_singleton_of_not_mem quote s h]
  rw [show (-1 : Int) + 1 = 0 by decide, h0]
  simp only [Index_singleton_of_not_mem quote s h]
  rfl

theorem findBinaryBounds_one (pre post : GoString) (h1 : quote ∉ pre) (h2 : quote ∉ post) :
    findBinaryBounds (pre ++ quote :: post) =
      some ((pre.length : Int) + 1, -1 + ((pre.length : Int) + 1)) := by
  have h0 : sliceFrom (pre ++ quote :: post) ((pre.length : Int) + 1) = some post := by
    have := sliceFrom_append (pre ++ [quote]) post
    simpa using this
  simp only [findBinaryBounds, Index_singleton_append quote pre post h1, h0,
    Index_singleton_of_not_mem quote post h2]

theorem findBinaryBounds_two (pre mid post : GoString) (h1 : quote ∉ pre) (h2 : quote ∉ mid) :
    findBinaryBounds (pre ++ quote :: (mid ++ quote :: post)) =
      some ((pre.length : Int) + 1, (mid.length : Int) + ((pre.length : Int) + 1)) := by
  have h0 : sliceFrom (pre ++ quote :: (mid ++ quote :: post)) ((pre.length : Int) + 1) =
      some (mid ++ quote :: post) := by
    have := sliceFrom_append (pre ++ [quote]) (mid ++ quote :: post)
    simpa using this
  simp only [findBinaryBounds, Index_singleton_append quote pre _ h1, h0,
    Index_singleton_append quote mid post h2]

theorem findBinaryName_none (s : GoString) (h : quote ∉ s) : findBinaryName s = none := by
  simp only [findBinaryName, findBinaryBounds_none s h]
  rw [slice_none_of_lt s 0 (-1) (by decide)]

theorem findBinaryName_one (pre post : GoString) (h1 : quote ∉ pre) (h2 : quote ∉ post) :
    findBinaryName (pre ++ quote :: post) = none := by
  simp only [findBinaryName, findBinaryBounds_one pre post h1 h2]
  rw [slice_none_of_lt _ _ _ (by omega)]

theorem findBinaryName_two (pre mid post : GoString) (h1 : quote ∉ pre) (h2 : quote ∉ mid) :
    findBinaryName (pre ++ quote :: (mid ++ quote :: post)) =
      some (binaryNameSpec (pre ++ quote :: (mid ++ quote :: post))) := by
  have h3 : slice (pre ++ quote :: (mid ++ quote :: post)) ((pre.length : Int) + 1)
      ((mid.length : Int) + ((pre.length : Int) + 1)) = some mid := by
    have := slice_append_mid (pre ++ [quote]) mid (quote :: post)
    simpa using this
  simp only [findBinaryName, findBinaryBounds_two pre mid post h1 h2, h3,
    Split_head, binaryNameSpec, quotedText_two pre mid post h1 h2, firstWord,
    dropTrailingColon]
  by_cases hc : (Trim (List.takeWhile (fun c => c != ' ') mid) "\n ".toList).getLast? = some ':'
  · have hs : HasSuffix (Trim (List.takeWhile (fun c => c != ' ') mid) "\n ".toList)
        ":".toList = true := (HasSuffix_singleton _ ':').mpr hc
    have hne : Trim (List.takeWhile (fun c => c != ' ') mid) "\n ".toList ≠ [] := by
      intro e; rw [e] at hc; simp at hc
    simp only [hs, hc, if_true, sliceTo_dropLast _ hne]
  · have hs : ¬ HasSuffix (Trim (List.takeWhile (fun c => c != ' ') mid) "\n ".toList)
        ":".toList = true := fun e => hc ((HasSuffix_singleton _ ':').mp e)
    simp only [hs, hc, if_false]
    rfl

theorem count_quote_two (q : Char) (pre mid post : GoString) :
    2 ≤ (pre ++ q :: (mid ++ q :: post)).count q := by
  simp only [List.count_append, List.count_cons_self]
  omega

theorem count_quote_one (q : Char) (pre post : GoString) (h1 : q ∉ pre) (h2 : q ∉ post) :
    (pre ++ q :: post).count q = 1 := by
  simp [List.count_append, List.count_cons_self, List.count_eq_zero_of_not_mem h1,
    List.count_eq_zero_of_not_mem h2]

/-- The name is extracted exactly when the text has two single quotes. -/
theorem findBinaryName_eq (s : GoString) :
    findBinaryName s = if 2 ≤ s.count quote then some (binaryNameSpec s) else none := by
  rcases quote_cases quote s with h | ⟨pre, post, rfl, h1, h2⟩ | ⟨pre, mid, post, rfl, h1, h2⟩
  · rw [findBinaryName_none s h, List.count_eq_zero_of_not_mem h]; rfl
  · rw [findBinaryName_one pre post h1 h2, count_quote_one quote pre post h1 h2]; rfl
  · rw [findBinaryName_two pre mid post h1 h2, if_pos (count_quote_two quote pre mid post)]


/-! ## C1: parsing the output of `ldd` -/

theorem foldl_append_if {α : Type} (p : α → Bool) (l init : List α) :
    l.foldl (fun acc x => if p x then acc ++ [x] else acc) init = init ++ l.filter p := by
  induction l generalizing init with
  | nil => simp
  | cons a as ih =>
    simp only [List.foldl_cons, ih]
    by_cases h : p a = true
    · simp [h, List.filter_cons]
    · simp [h, List.filter_cons]

theorem seedLibraries_eq (stat : GoString → Bool) :
    seedLibraries stat = static_libraries.filter stat := by
  unfold seedLibraries
  rw [foldl_append_if stat static_libraries []]
  simp

theorem reSpace_isSpace (c : Char) (h : reSpace c = true) : isSpace c = true := by
  simp only [reSpace, Bool.or_eq_true, decide_eq_true_eq] at h
  rcases h with (((h | h) | h) | h) | h <;> subst h <;> decide

theorem arrowHere_spec (s tok ws : GoString) (h : arrowHere s = some (tok, ws)) :
    ∃ rest, s = "=> ".toList ++ (tok ++ (ws ++ rest)) ∧ tok ≠ [] ∧ ws ≠ [] ∧
      (∀ c ∈ tok, reSpace c = false) ∧ (∀ c ∈ ws, reSpace c = true) := by
  unfold arrowHere at h
  split at h
  · rename_i hp
    dsimp only at h
    split at h
    · rename_i hne
      simp only [Option.some.injEq, Prod.mk.injEq] at h
      obtain ⟨h1, h2⟩ := h
      have hpre : "=> ".toList <+: s := List.isPrefixOf_iff_prefix.mp hp
      obtain ⟨r, hr⟩ := hpre
      have hdrop : List.drop 3 s = r := by
        rw [← hr]; rfl
      rw [hdrop] at h1 h2 hne
      refine ⟨List.dropWhile reSpace (List.dropWhile (fun c => !reSpace c) r), ?_, ?_, ?_, ?_, ?_⟩
      · rw [← hr, ← h1, ← h2, List.takeWhile_append_dropWhile, List.takeWhile_append_dropWhile]
      · rw [← h1]; exact hne.1
      · rw [← h2]; exact hne.2
      · intro c hc
        rw [← h1] at hc
        have := List.mem_takeWhile_imp hc
        simpa using this
      · intro c hc
        rw [← h2] at hc
        exact List.mem_takeWhile_imp hc
    · cases h
  · cases h

theorem arrowSearch_spec (line pre tok ws : GoString)
    (h : arrowSearch line = some (pre, tok, ws)) :
    ∃ rest, line = pre ++ ("=> ".toList ++ (tok ++ (ws ++ rest))) ∧ tok ≠ [] ∧ ws ≠ [] ∧
      (∀ c ∈ tok, reSpace c = false) ∧ (∀ c ∈ ws, reSpace c = true) := by
  induction line generalizing pre with
  | nil => simp [arrowSearch] at h
  | cons c cs ih =>
    unfold arrowSearch at h
    cases hh : arrowHere (c :: cs) with
    | some r =>
      obtain ⟨tok2, ws2⟩ := r
      simp only [hh, Option.some.injEq, Prod.mk.injEq] at h
      obtain ⟨rfl, rfl, rfl⟩ := h
      obtain ⟨rest, h1, h2⟩ := arrowHere_spec (c :: cs) tok2 ws2 hh
      exact ⟨rest, by simpa using h1, h2⟩
    | none =>
      simp only [hh] at h
      cases hs : arrowSearch cs with
      | none => simp [hs] at h
      | some r =>
        obtain ⟨pre2, tok2, ws2⟩ := r
        simp only [hs, Option.some.injEq, Prod.mk.injEq] at h
        obtain ⟨rfl, rfl, rfl⟩ := h
        obtain ⟨rest, h1, h2⟩ := ih pre2 hs
        exact ⟨rest, by rw [h1]; rfl, h2⟩

theorem rdropWhile_append_of_pos {α : Type} (p : α → Bool) (l ws : List α)
    (h : ∀ c ∈ ws, p c = true) : (l ++ ws).rdropWhile p = l.rdropWhile p := by
  unfold List.rdropWhile
  rw [List.reverse_append, List.dropWhile_append_of_pos (fun a ha => h a (List.mem_reverse.mp ha))]

theorem TrimSpace_append_space (a ws : GoString) (h : ∀ c ∈ ws, isSpace c = true) :
    TrimSpace (a ++ ws) = TrimSpace a := by
  unfold TrimSpace
  rw [List.dropWhile_append]
  by_cases he : (List.dropWhile isSpace a).isEmpty = true
  · have hnil : List.dropWhile isSpace a = [] := List.isEmpty_iff.mp he
    have hws : List.dropWhile isSpace ws = [] := by
      rw [List.dropWhile_eq_nil_iff]; exact h
    simp [he, hnil, hws]
  · simp only [he, if_false, Bool.false_eq_true]
    exact rdropWhile_append_of_pos isSpace _ ws h

theorem TrimSpace_eq_self (s : GoString) (hs : s ≠ [])
    (hfirst : ∀ c, s.head? = some c → isSpace c = false)
    (hlast : ∀ c, s.getLast? = some c → isSpace c = false) : TrimSpace s = s := by
  unfold TrimSpace
  have h1 : List.dropWhile isSpace s = s := by
    cases s with
    | nil => rfl
    | cons a as =>
      have := hfirst a rfl
      simp [List.dropWhile_cons, this]
  rw [h1, List.rdropWhile_eq_self_iff]
  intro hl
  have := hlast (s.getLast hl) (List.getLast?_eq_getLast _ hl)
  simp [this]

theorem TrimSpace_match (tok ws : GoString) (htok : tok ≠ [])
    (hlast : ∀ c, tok.getLast? = some c → isSpace c = false)
    (hws : ∀ c ∈ ws, reSpace c = true) :
    TrimSpace ("=> ".toList ++ tok ++ ws) = "=> ".toList ++ tok := by
  rw [TrimSpace_append_space _ ws (fun c hc => reSpace_isSpace c (hws c hc))]
  apply TrimSpace_eq_self
  · simp
  · intro c hc
    have : c = '=' := by
      have h0 : ("=> ".toList ++ tok).head? = some '=' := rfl
      rw [h0] at hc
      exact (Option.some.inj hc).symm
    subst this; decide
  · intro c hc
    rw [List.getLast?_append_of_ne_nil _ htok] at hc
    exact hlast c hc

theorem indexNat_spec (sep s : GoString) (i : Nat) (h : indexNat sep s = some i) :
    sep <+: s.drop i ∧ i ≤ s.length := by
  induction s generalizing i with
  | nil =>
    unfold indexNat at h
    split at h
    · rename_i he
      cases h
      subst he
      simp
    · cases h
  | cons c cs ih =>
    unfold indexNat at h
    split at h
    · rename_i hp
      cases h
      exact ⟨List.isPrefixOf_iff_prefix.mp hp, Nat.zero_le _⟩
    · cases hi : indexNat sep cs with
      | none => simp [hi] at h
      | some k =>
        simp only [hi, Option.map_some', Option.some.injEq] at h
        subst h
        have := ih k hi
        exact ⟨by simpa using this.1, by simpa using this.2⟩

theorem sliceTo_take (s : GoString) (k : Nat) (h : k ≤ s.length) :
    sliceTo s (k : Int) = some (s.take k) := by
  have hc : (0 : Int) ≤ 0 ∧ (0 : Int) ≤ (k : Int) ∧ (k : Int) ≤ (s.length : Int) := by omega
  simp only [sliceTo, slice, hc, and_self, if_true]
  simp

theorem before_arrow (line pre r : GoString) (i : Nat) (hl : line = pre ++ r)
    (hi : indexNat " =>".toList line = some i) (hlen : i + 1 = pre.length) :
    sliceTo line (i : Int) = some (pre.take i) ∧ TrimSpace (pre.take i) = TrimSpace pre := by
  obtain ⟨hpre, hle⟩ := indexNat_spec _ _ _ hi
  have htake : line.take i = pre.take i := by
    rw [hl, List.take_append_of_le_length (by omega)]
  refine ⟨by rw [sliceTo_take line i hle, htake], ?_⟩
  have hdrop : line.drop i = pre.drop i ++ r := by
    rw [hl, List.drop_append_of_le_length (by omega)]
  have hlen1 : (pre.drop i).length = 1 := by
    rw [List.length_drop]; omega
  obtain ⟨x, hx⟩ := List.length_eq_one.mp hlen1
  rw [hdrop, hx] at hpre
  obtain ⟨t, ht⟩ := hpre
  have hx2 : x = ' ' := by
    have h0 := congrArg List.head? ht
    simp only [List.singleton_append, List.head?_cons] at h0
    have h1 : (" =>".toList ++ t).head? = some ' ' := rfl
    rw [h1] at h0
    exact (Option.some.inj h0).symm
  have hsplit : pre = pre.take i ++ [' '] := by
    conv_lhs => rw [← List.take_append_drop i pre]
    rw [hx, hx2]
  conv_rhs => rw [hsplit]
  rw [TrimSpace_append_space]
  intro c hc
  simp only [List.mem_singleton] at hc
  subst hc; decide

/-- On a well-formed line one turn of the loop does what the specification
says: it appends the target, or the trimmed text before the arrow. -/
theorem lddLoopBody_eq (st : Scan) (line : GoString) (h : arrowWellFormed line = true) :
    lddLoopBody st line =
      some ⟨st.libraries ++ (resolvedTarget line).toList,
        st.missingLibraries ++ (missingName line).toList⟩ := by
  unfold arrowWellFormed at h
  unfold lddLoopBody FindStringArrow resolvedTarget missingName
  cases hs : arrowSearch line with
  | none =>
    simp [TrimSpace, List.rdropWhile]
  | some r =>
    obtain ⟨pre, tok, ws⟩ := r
    simp only [hs, Bool.and_eq_true, Bool.or_eq_true, bne_iff_ne, ne_eq, decide_eq_true_eq] at h
    obtain ⟨hlast, hnot⟩ := h
    obtain ⟨rest, hline, htok, hws, htokc, hwsc⟩ := arrowSearch_spec line pre tok ws hs
    have hlast2 : ∀ c, tok.getLast? = some c → isSpace c = false := by
      intro c hc
      rw [hc] at hlast
      simpa using hlast
    have hm : TrimSpace ("=> ".toList ++ tok ++ ws) = "=> ".toList ++ tok :=
      TrimSpace_match tok ws htok hlast2 hwsc
    have hne : "=> ".toList ++ tok ≠ [] := by simp
    have h3 : sliceFrom ("=> ".toList ++ tok) 3 = some tok := sliceFrom_append "=> ".toList tok
    simp only [hm, hne, if_false, h3]
    by_cases hn : tok = "not".toList
    · simp only [hn, if_true, not_true_eq_false, false_or] at hnot ⊢
      obtain ⟨hpos, hidx⟩ := hnot
      cases hi : indexNat " =>".toList line with
      | none =>
        simp only [Index, hi] at hidx
        omega
      | some i =>
        simp only [Index, hi] at hidx ⊢
        have hlen : i + 1 = pre.length := by omega
        obtain ⟨e1, e2⟩ := before_arrow line pre _ i hline hi hlen
        simp [e1, e2]
    · have hn2 : ¬ tok = ['n', 'o', 't'] := hn
      simp [hn2, htok]

theorem lddLoop_eq (lines : List GoString) (st : Scan)
    (h : ∀ line ∈ lines, arrowWellFormed line = true) :
    lddLoop lines st =
      some ⟨st.libraries ++ lines.filterMap resolvedTarget,
        st.missingLibraries ++ lines.filterMap missingName⟩ := by
  induction lines generalizing st with
  | nil => simp [lddLoop]
  | cons line rest ih =>
    have h1 := lddLoopBody_eq st line (h line (List.mem_cons_self _ _))
    have h2 := ih ⟨st.libraries ++ (resolvedTarget line).toList,
        st.missingLibraries ++ (missingName line).toList⟩
      (fun l hl => h l (List.mem_cons_of_mem _ hl))
    simp only [lddLoop, h1, h2, List.filterMap_cons]
    cases resolvedTarget line <;> cases missingName line <;> simp

/-- C1 (amended): for the output of a successful `ldd` whose matching lines
are well formed (the target does not end in a Unicode space character, and on
a `not` line the matched arrow has a blank before it and is the first ` =>`
of the line), the resolved list is the locally present seeds, in their fixed
order, followed in line order by the arrow target of every line that has
`=> <non-space token>` followed by white space and whose target is not `not`;
every line whose target is `not` adds nothing to it and adds the trimmed text
before the arrow to the missing list. -/
theorem lddScan_of_wellFormed (stat : GoString → Bool) (out : GoString)
    (h : ∀ line ∈ Split out '\n', arrowWellFormed line = true) :
    lddScan stat out =
      some ⟨static_libraries.filter stat ++ (Split out '\n').filterMap resolvedTarget,
        (Split out '\n').filterMap missingName⟩ ∧
    getLibraryListWithLDD stat true ⟨out, none⟩ =
      some ⟨some out,
        some (static_libraries.filter stat ++ (Split out '\n').filterMap resolvedTarget),
        none⟩ := by
  have e : lddScan stat out =
      some ⟨static_libraries.filter stat ++ (Split out '\n').filterMap resolvedTarget,
        (Split out '\n').filterMap missingName⟩ := by
    unfold lddScan
    rw [lddLoop_eq _ _ h, seedLibraries_eq]
    simp
  refine ⟨e, ?_⟩
  simp only [getLibraryListWithLDD, e, missingPolicy]
  split <;> rfl

/-- Witness of C1: the sample output on a machine that has the first seed;
the line `libc.so.6 => /lib64/libc.so.6 (0x00007f)` yields `/lib64/libc.so.6`
and the line `libfoo.so.1 => not found` the missing name `libfoo.so.1`. -/
theorem lddScan_of_wellFormed_witness :
    (∀ line ∈ Split lddSample '\n', arrowWellFormed line = true) ∧
    lddScan (fun p => decide (p = "/lib64/libgcc_s.so.1".toList)) lddSample =
      some ⟨["/lib64/libgcc_s.so.1".toList, "/lib64/libc.so.6".toList],
        ["libfoo.so.1".toList]⟩ := by
  refine ⟨by decide, ?_⟩
  rw [(lddScan_of_wellFormed (fun p => decide (p = "/lib64/libgcc_s.so.1".toList)) lddSample
    (by decide)).1]
  decide

/-- C1 as stated fails: on the line `libfoo.so.1=> not found` the claim puts
`libfoo.so.1` on the missing list, and the code panics in `line[:index]`
(there is no ` =>` with a blank before the arrow, `index` is `-1`); on the line
`liba.so =>x => not found` the text before the matched arrow is `liba.so =>x`
and the code records `liba.so`; on a line whose token is a lone vertical tab
the code panics in `match[3:]`. -/
theorem lddScan_counterexample :
    (Split "\tlibfoo.so.1=> not found".toList '\n').filterMap missingName =
      ["libfoo.so.1".toList] ∧
    lddScan (fun _ => false) "\tlibfoo.so.1=> not found".toList = none ∧
    (Split "liba.so =>x => not found".toList '\n').filterMap missingName =
      ["liba.so =>x".toList] ∧
    lddScan (fun _ => false) "liba.so =>x => not found".toList =
      some ⟨[], ["liba.so".toList]⟩ ∧
    (Split "libv.so => \x0b (0x1)".toList '\n').filterMap resolvedTarget = ["\x0b".toList] ∧
    lddScan (fun _ => false) "libv.so => \x0b (0x1)".toList = none := by
  decide

/-! ## C2: the policy on missing libraries -/

theorem foldl_append_flatten {α : Type} (f : α → GoString) (l : List α) (init : GoString) :
    l.foldl (fun acc x => acc ++ f x) init = init ++ (l.map f).flatten := by
  induction l generalizing init with
  | nil => simp
  | cons a as ih => simp [ih]

theorem missingErrString_eq (missing : List GoString) :
    missingErrString missing ++ ignoreMissingHint = missingReport missing := by
  unfold missingErrString missingReport
  rw [foldl_append_flatten]

theorem missingPolicy_eq (ign : Bool) (out : GoString) (st : Scan) :
    missingPolicy ign out st =
      if st.missingLibraries ≠ [] ∧ ign = false then
        ⟨none, none, some (missingReport st.missingLibraries)⟩
      else ⟨some out, some st.libraries, none⟩ := by
  unfold missingPolicy
  rw [← missingErrString_eq]
  cases hm : st.missingLibraries with
  | nil => simp
  | cons a as => cases ign <;> simp [ignoreMissingHint]

theorem gdbLoop_disjoint (stat : GoString → Bool) (lines : List GoString) (st : Scan)
    (h1 : ∀ lib ∈ st.libraries, stat lib = true)
    (h2 : ∀ lib ∈ st.missingLibraries, stat lib = false) :
    (∀ lib ∈ (lines.foldl (gdbLoopBody stat) st).libraries, stat lib = true) ∧
    (∀ lib ∈ (lines.foldl (gdbLoopBody stat) st).missingLibraries, stat lib = false) := by
  induction lines generalizing st with
  | nil => exact ⟨h1, h2⟩
  | cons line rest ih =>
    simp only [List.foldl_cons]
    apply ih
    · intro lib hl
      unfold gdbLoopBody at hl
      split at hl
      · exact h1 lib hl
      · split at hl
        · rename_i hst
          simp only [List.mem_append, List.mem_singleton] at hl
          rcases hl with hl | rfl
          · exact h1 lib hl
          · exact hst
        · exact h1 lib hl
    · intro lib hl
      unfold gdbLoopBody at hl
      split at hl
      · exact h2 lib hl
      · split at hl
        · exact h2 lib hl
        · rename_i hst
          simp only [List.mem_append, List.mem_singleton] at hl
          rcases hl with hl | rfl
          · exact h2 lib hl
          · simpa using hst

theorem lddLoopBody_adds (st : Scan) (line : GoString) :
    lddLoopBody st line =
      (lddLineAdds line).map (fun d =>
        ⟨st.libraries ++ d.libraries, st.missingLibraries ++ d.missingLibraries⟩) := by
  unfold lddLineAdds lddLoopBody
  dsimp only
  split
  · simp
  · split
    · rfl
    · split
      · split
        · rfl
        · simp
      · split
        · simp
        · simp

theorem lddLineAdds_cases (line : GoString) (d : Scan) (h : lddLineAdds line = some d) :
    d.libraries = [] ∨ d.missingLibraries = [] := by
  unfold lddLineAdds lddLoopBody at h
  dsimp only at h
  split at h
  · cases h; exact Or.inl rfl
  · split at h
    · cases h
    · split at h
      · split at h
        · cases h
        · cases h; exact Or.inl rfl
      · split at h
        · cases h; exact Or.inl rfl
        · cases h; exact Or.inr rfl

theorem lddLineAdds_one (line : GoString) :
    lddLineMissing line ≠ [] → lddLineLibraries line = [] := by
  unfold lddLineMissing lddLineLibraries
  cases hd : lddLineAdds line with
  | none => simp
  | some d =>
    simp only
    intro hm
    rcases lddLineAdds_cases line d hd with h | h
    · exact h
    · exact absurd h hm

theorem lddLoop_adds (lines : List GoString) (st st2 : Scan) (h : lddLoop lines st = some st2) :
    st2.libraries = st.libraries ++ lines.flatMap lddLineLibraries ∧
    st2.missingLibraries = st.missingLibraries ++ lines.flatMap lddLineMissing := by
  induction lines generalizing st with
  | nil =>
    simp only [lddLoop, Option.some.injEq] at h
    subst h
    simp
  | cons line rest ih =>
    unfold lddLoop at h
    rw [lddLoopBody_adds] at h
    cases hd : lddLineAdds line with
    | none => simp [hd] at h
    | some d =>
      simp only [hd, Option.map_some'] at h
      obtain ⟨h1, h2⟩ := ih _ h
      simp only [List.flatMap_cons, lddLineLibraries, lddLineMissing, hd]
      exact ⟨by rw [h1, List.append_assoc], by rw [h2, List.append_assoc]⟩

/-- C2 (amended): given that the tool ran successfully and the parsing loop
completed (that of `getLibraryListWithGDB` always does, that of
`getLibraryListWithLDD` on every output whose lines are well formed), a
resolver returns an error exactly when a missing library was
found and `ignore_missing` is false; then it returns no list and no tool
output, and the error lists every missing name on a line of its own in the
order found and ends with the `-ignore_missing` hint. Otherwise it returns no
error, the tool output and the resolved list. The list of
`getLibraryListWithGDB` contains none of the missing entries; the list of
`getLibraryListWithLDD` holds the present seeds and what the lines add, and a
line that reports a missing library adds nothing to it. -/
theorem missing_policy (stat : GoString → Bool) (ign : Bool) (out : GoString) :
    (getLibraryListWithGDB stat ign ⟨out, none⟩ =
      if (gdbScan stat out).missingLibraries ≠ [] ∧ ign = false then
        ⟨none, none, some (missingReport (gdbScan stat out).missingLibraries)⟩
      else ⟨some out, some (gdbScan stat out).libraries, none⟩) ∧
    (∀ lib ∈ (gdbScan stat out).libraries, lib ∉ (gdbScan stat out).missingLibraries) ∧
    (∀ st, lddScan stat out = some st →
      getLibraryListWithLDD stat ign ⟨out, none⟩ =
        some (if st.missingLibraries ≠ [] ∧ ign = false then
            ⟨none, none, some (missingReport st.missingLibraries)⟩
          else ⟨some out, some st.libraries, none⟩) ∧
      st.libraries =
        static_libraries.filter stat ++ (Split out '\n').flatMap lddLineLibraries ∧
      st.missingLibraries = (Split out '\n').flatMap lddLineMissing) ∧
    (∀ line, lddLineMissing line ≠ [] → lddLineLibraries line = []) ∧
    (∀ missing, ignoreMissingHint <:+ missingReport missing) ∧
    ((∀ line ∈ Split out '\n', arrowWellFormed line = true) →
      ∃ st, lddScan stat out = some st) := by
  refine ⟨?_, ?_, ?_, lddLineAdds_one, ?_, fun h => ⟨_, lddLoop_eq _ _ h⟩⟩
  · simp only [getLibraryListWithGDB, missingPolicy_eq]
  · intro lib hl hm
    have := gdbLoop_disjoint stat (Split out '\n') ⟨[], []⟩ (by simp) (by simp)
    have h1 := this.1 lib hl
    have h2 := this.2 lib hm
    rw [h1] at h2
    cases h2
  · intro st hst
    refine ⟨by simp only [getLibraryListWithLDD, hst, missingPolicy_eq], ?_⟩
    have := lddLoop_adds _ _ _ hst
    rw [seedLibraries_eq] at this
    simpa using this
  · intro missing
    exact ⟨_, rfl⟩

/-- Witness of C2: the sample `ldd` output with `ignore_missing` false gives
the error that lists `libfoo.so.1`; with `ignore_missing` true it gives the
resolved list. -/
theorem missing_policy_witness :
    lddScan (fun _ => false) lddSample =
      some ⟨["/lib64/libc.so.6".toList], ["libfoo.so.1".toList]⟩ ∧
    getLibraryListWithLDD (fun _ => false) false ⟨lddSample, none⟩ =
      some ⟨none, none, some ("Unable to find libraries: \n    libfoo.so.1\n".toList ++
        ignoreMissingHint)⟩ ∧
    getLibraryListWithLDD (fun _ => false) true ⟨lddSample, none⟩ =
      some ⟨some lddSample, some ["/lib64/libc.so.6".toList], none⟩ := by
  have hs : lddScan (fun _ => false) lddSample =
      some ⟨["/lib64/libc.so.6".toList], ["libfoo.so.1".toList]⟩ := by decide
  refine ⟨hs, ?_, ?_⟩
  · rw [((missing_policy (fun _ => false) false lddSample).2.2.1 _ hs).1]
    decide
  · rw [((missing_policy (fun _ => false) true lddSample).2.2.1 _ hs).1]
    decide

/-- C2 as stated fails for `getLibraryListWithLDD`: with `ignore_missing`
true, an output that reports `/opt/lib/libb.so` as not found and also resolves
`liba.so.1` to `/opt/lib/libb.so` gives a resolved list that contains the
missing entry `/opt/lib/libb.so`. -/
theorem missing_policy_counterexample :
    lddScan (fun _ => false) lddClash =
      some ⟨["/opt/lib/libb.so".toList], ["/opt/lib/libb.so".toList]⟩ ∧
    getLibraryListWithLDD (fun _ => false) true ⟨lddClash, none⟩ =
      some ⟨some lddClash, some ["/opt/lib/libb.so".toList], none⟩ ∧
    ¬ (∀ lib ∈ ["/opt/lib/libb.so".toList], lib ∉ ["/opt/lib/libb.so".toList]) := by
  decide

/-! ## C3, C4: `checkPackageContents` -/

theorem checkPackageContents_missing_eq (stat : GoString → StatResult) (packdir : GoString)
    (libraries : List GoString) :
    libraries.foldl (fun missing lib =>
      if IsNotExist (stat (libraryLocation packdir lib)) = true then missing ++ [lib]
      else missing) [] =
    libraries.filter (fun lib => IsNotExist (stat (Join packdir (TrimSpace lib)))) := by
  have h := foldl_append_if (fun lib => IsNotExist (stat (Join packdir (TrimSpace lib))))
    libraries []
  simp only [List.nil_append] at h
  rw [← h]
  rfl

/-- What `checkPackageContents` does on every state: it reports the first
check for which `os.IsNotExist` holds. -/
theorem checkPackageContents_first_failure (stat : GoString → StatResult)
    (packdir coreFile binary : GoString) (libraries : List GoString) :
    checkPackageContents stat packdir coreFile binary libraries =
      firstFailure (referenceChecks (fun p => !IsNotExist (stat p)) packdir coreFile binary
        libraries) := by
  have hpos : 0 < (libraries.filter
      (fun lib => IsNotExist (stat (Join packdir (TrimSpace lib))))).length ↔
      libraries.all (fun lib => !IsNotExist (stat (Join packdir (TrimSpace lib)))) = false := by
    rw [List.length_pos, ne_eq, List.filter_eq_nil_iff]
    simp
  unfold checkPackageContents
  simp only [checkPackageContents_missing_eq, foldl_append_flatten, List.nil_append,
    referenceChecks, firstFailure, Bool.not_not, gt_iff_lt, hpos]
  generalize IsNotExist (stat packdir) = b1
  generalize IsNotExist (stat (Join packdir (Base coreFile))) = b2
  generalize IsNotExist (stat (Join packdir (Base binary))) = b3
  generalize libraries.all (fun lib => !IsNotExist (stat (Join packdir (TrimSpace lib)))) = b4
  generalize IsNotExist (stat (Join packdir "ldd_output".toList)) = b5
  generalize IsNotExist (stat (Join packdir "gdb_output".toList)) = b6
  generalize IsNotExist (stat (Join packdir "runGDB.sh".toList)) = b7
  by_cases hcf : coreFile = []
  · cases b1 <;> cases b2 <;> cases b3 <;> cases b4 <;> cases b5 <;> cases b6 <;> cases b7 <;>
      simp [hcf]
  · cases b1 <;> cases b2 <;> cases b3 <;> cases b4 <;> cases b5 <;> cases b6 <;> cases b7 <;>
      simp [hcf]

/-- The ordered reference check passes exactly when all six conditions
hold. -/
theorem firstFailure_referenceChecks_none (present : GoString → Bool)
    (packdir coreFile binary : GoString) (libraries : List GoString) :
    firstFailure (referenceChecks present packdir coreFile binary libraries) = none ↔
      present packdir = true ∧
      (coreFile = [] ∨ present (Join packdir (Base coreFile)) = true) ∧
      present (Join packdir (Base binary)) = true ∧
      (∀ lib ∈ libraries, present (Join packdir (TrimSpace lib)) = true) ∧
      (present (Join packdir "ldd_output".toList) = true ∨
        present (Join packdir "gdb_output".toList) = true) ∧
      present (Join packdir "runGDB.sh".toList) = true := by
  have hall : (∀ lib ∈ libraries, present (Join packdir (TrimSpace lib)) = true) ↔
      libraries.all (fun lib => present (Join packdir (TrimSpace lib))) = true := by
    simp
  simp only [referenceChecks, firstFailure, hall]
  generalize present packdir = b1
  generalize present (Join packdir (Base coreFile)) = b2
  generalize present (Join packdir (Base binary)) = b3
  generalize libraries.all (fun lib => present (Join packdir (TrimSpace lib))) = b4
  generalize present (Join packdir "ldd_output".toList) = b5
  generalize present (Join packdir "gdb_output".toList) = b6
  generalize present (Join packdir "runGDB.sh".toList) = b7
  by_cases hcf : coreFile = []
  · cases b1 <;> cases b2 <;> cases b3 <;> cases b4 <;> cases b5 <;> cases b6 <;> cases b7 <;>
      simp [hcf]
  · cases b1 <;> cases b2 <;> cases b3 <;> cases b4 <;> cases b5 <;> cases b6 <;> cases b7 <;>
      simp [hcf]

/-- Where `os.Stat` does not fail otherwise, `os.IsNotExist` says that the
path does not exist. -/
theorem not_IsNotExist_eq_pathExists (stat : GoString → StatResult) (p : GoString)
    (h : stat p ≠ .otherError) : (!IsNotExist (stat p)) = pathExists stat p := by
  unfold pathExists
  cases hs : stat p
  · rfl
  · rfl
  · exact absurd hs h

/-- The reference check looks at a state only through the checked paths. -/
theorem referenceChecks_congr (f g : GoString → Bool) (packdir coreFile binary : GoString)
    (libraries : List GoString)
    (h : ∀ p ∈ checkedPaths packdir coreFile binary libraries, f p = g p) :
    firstFailure (referenceChecks f packdir coreFile binary libraries) =
      firstFailure (referenceChecks g packdir coreFile binary libraries) := by
  have h1 : f packdir = g packdir := h _ (by simp [checkedPaths])
  have h3 : f (Join packdir (Base binary)) = g (Join packdir (Base binary)) :=
    h _ (by simp [checkedPaths])
  have h5 : f (Join packdir "ldd_output".toList) = g (Join packdir "ldd_output".toList) :=
    h _ (by simp [checkedPaths])
  have h6 : f (Join packdir "gdb_output".toList) = g (Join packdir "gdb_output".toList) :=
    h _ (by simp [checkedPaths])
  have h7 : f (Join packdir "runGDB.sh".toList) = g (Join packdir "runGDB.sh".toList) :=
    h _ (by simp [checkedPaths])
  have hlib : ∀ lib ∈ libraries,
      f (Join packdir (TrimSpace lib)) = g (Join packdir (TrimSpace lib)) := by
    intro lib hmem
    apply h
    simp only [checkedPaths, List.mem_append, List.mem_map]
    exact Or.inl (Or.inr ⟨lib, hmem, rfl⟩)
  have hall : libraries.all (fun lib => f (Join packdir (TrimSpace lib))) =
      libraries.all (fun lib => g (Join packdir (TrimSpace lib))) := by
    induction libraries with
    | nil => rfl
    | cons a as ih =>
      simp only [List.all_cons]
      rw [hlib a (by simp), ih (fun p hp => by
        apply h
        simp only [checkedPaths, List.mem_append, List.mem_map, List.mem_cons] at hp ⊢
        rcases hp with ((((hp | hp) | hp) | ⟨x, hx, rfl⟩) | hp)
        · exact Or.inl (Or.inl (Or.inl (Or.inl hp)))
        · exact Or.inl (Or.inl (Or.inl (Or.inr hp)))
        · exact Or.inl (Or.inl (Or.inr hp))
        · exact Or.inl (Or.inr ⟨x, Or.inr hx, rfl⟩)
        · exact Or.inr hp) (fun lib hmem => hlib lib (List.mem_cons_of_mem _ hmem))]
  have hfilter : libraries.filter (fun lib => !f (Join packdir (TrimSpace lib))) =
      libraries.filter (fun lib => !g (Join packdir (TrimSpace lib))) := by
    apply List.filter_congr
    intro lib hmem
    rw [hlib lib hmem]
  by_cases hcf : coreFile = []
  · simp only [referenceChecks, firstFailure, h1, h3, h5, h6, h7, hall, hfilter, hcf,
      decide_True, Bool.true_or]
  · have h2 : f (Join packdir (Base coreFile)) = g (Join packdir (Base coreFile)) :=
      h _ (by simp [checkedPaths, hcf])
    simp only [referenceChecks, firstFailure, h1, h2, h3, h5, h6, h7, hall, hfilter]

/-- C3 (amended): on every state in which `os.Stat` of each checked path
either succeeds or reports that the path does not exist,
`checkPackageContents` is the ordered reference check: it returns the error of
the first check that fails, in the order staging directory, core file (when
given), binary, libraries, one of `ldd_output` and `gdb_output`, `runGDB.sh`;
and it returns no error exactly when all six hold. A missing staging
directory is reported even when everything else is missing too. -/
theorem checkPackageContents_reference (stat : GoString → StatResult)
    (packdir coreFile binary : GoString) (libraries : List GoString)
    (hstat : ∀ p ∈ checkedPaths packdir coreFile binary libraries, stat p ≠ .otherError) :
    checkPackageContents stat packdir coreFile binary libraries =
      firstFailure (referenceChecks (pathExists stat) packdir coreFile binary libraries) ∧
    (checkPackageContents stat packdir coreFile binary libraries = none ↔
      stat packdir = .ok ∧
      (coreFile = [] ∨ stat (Join packdir (Base coreFile)) = .ok) ∧
      stat (Join packdir (Base binary)) = .ok ∧
      (∀ lib ∈ libraries, stat (Join packdir (TrimSpace lib)) = .ok) ∧
      (stat (Join packdir "ldd_output".toList) = .ok ∨
        stat (Join packdir "gdb_output".toList) = .ok) ∧
      stat (Join packdir "runGDB.sh".toList) = .ok) ∧
    checkPackageContents (fun _ => .notExist) "./packcore-core.1".toList "/tmp/core.1".toList
        "/usr/bin/postgres".toList ["/lib64/libc.so.6".toList] =
      some "Missing packcore directory: ./packcore-core.1\n".toList := by
  have e : checkPackageContents stat packdir coreFile binary libraries =
      firstFailure (referenceChecks (pathExists stat) packdir coreFile binary libraries) := by
    rw [checkPackageContents_first_failure]
    exact referenceChecks_congr _ _ packdir coreFile binary libraries
      (fun p hp => not_IsNotExist_eq_pathExists stat p (hstat p hp))
  refine ⟨e, ?_, by decide⟩
  rw [e, firstFailure_referenceChecks_none]
  simp only [pathExists, decide_eq_true_eq]

/-- Witness of C3: the complete staging directory passes, and the one
without two of the libraries is stopped at the library check. -/
theorem checkPackageContents_reference_witness :
    (∀ p ∈ checkedPaths "pc".toList "/tmp/core.1".toList "/usr/bin/postgres".toList
      fiveLibraries, fullStaging p ≠ .otherError) ∧
    checkPackageContents fullStaging "pc".toList "/tmp/core.1".toList
      "/usr/bin/postgres".toList fiveLibraries = none ∧
    checkPackageContents twoAbsent "pc".toList "/tmp/core.1".toList
      "/usr/bin/postgres".toList fiveLibraries =
      some "Missing Libraries!\n\t/lib64/libm.so.6\n\t/usr/lib64/libfoo.so.1\n".toList := by
  refine ⟨by decide, ?_, ?_⟩
  · rw [(checkPackageContents_reference fullStaging "pc".toList "/tmp/core.1".toList
      "/usr/bin/postgres".toList fiveLibraries (by decide)).1]
    decide
  · rw [(checkPackageContents_reference twoAbsent "pc".toList "/tmp/core.1".toList
      "/usr/bin/postgres".toList fiveLibraries (by decide)).1]
    decide

/-- C3 as stated fails: the staging directory holds the core file, the binary
`pc/postgres`, `gdb_output` and `runGDB.sh`, and the one library
`/postgres/libx.so` was not copied. `os.Stat` of `pc/postgres/libx.so` fails
with `ENOTDIR`, `os.IsNotExist` does not hold, and `checkPackageContents`
returns no error although the library does not exist in the staging
directory; the reference check reports it. -/
theorem checkPackageContents_reference_counterexample :
    checkPackageContents fileInTheWay "pc".toList "/tmp/core.1".toList
      "/usr/bin/postgres".toList ["/postgres/libx.so".toList] = none ∧
    Join "pc".toList (TrimSpace "/postgres/libx.so".toList) = "pc/postgres/libx.so".toList ∧
    fileInTheWay "pc/postgres/libx.so".toList = .otherError ∧
    ¬ (∀ lib ∈ ["/postgres/libx.so".toList],
      fileInTheWay (Join "pc".toList (TrimSpace lib)) = .ok) ∧
    firstFailure (referenceChecks (pathExists fileInTheWay) "pc".toList "/tmp/core.1".toList
      "/usr/bin/postgres".toList ["/postgres/libx.so".toList]) =
      some "Missing Libraries!\n\t/postgres/libx.so\n".toList := by
  decide

/-- C4 (amended): when the staging directory, the core file and the binary
are present, `os.Stat` of each library location either succeeds or reports
that the path does not exist, and some library is absent from the staging
directory, the error of `checkPackageContents` is `Missing Libraries!`
followed by the absent libraries and no others, each on a line of its own,
once for every occurrence in the input list and in the order of that list. -/
theorem checkPackageContents_lists_all_absent (stat : GoString → StatResult)
    (packdir coreFile binary : GoString) (libraries : List GoString)
    (hdir : stat packdir = .ok)
    (hcore : coreFile = [] ∨ stat (Join packdir (Base coreFile)) = .ok)
    (hbin : stat (Join packdir (Base binary)) = .ok)
    (hlibs : ∀ lib ∈ libraries, stat (Join packdir (TrimSpace lib)) ≠ .otherError)
    (habsent : libraries.filter
      (fun lib => !pathExists stat (Join packdir (TrimSpace lib))) ≠ []) :
    checkPackageContents stat packdir coreFile binary libraries =
      some ("Missing Libraries!\n".toList ++
        ((libraries.filter (fun lib => !pathExists stat (Join packdir (TrimSpace lib)))).map
          (fun lib => "\t".toList ++ lib ++ "\n".toList)).flatten) := by
  have hfilter : libraries.filter
      (fun lib => !(!IsNotExist (stat (Join packdir (TrimSpace lib))))) =
      libraries.filter (fun lib => !pathExists stat (Join packdir (TrimSpace lib))) := by
    apply List.filter_congr
    intro lib hmem
    rw [not_IsNotExist_eq_pathExists stat _ (hlibs lib hmem)]
  have hall : libraries.all (fun lib => !IsNotExist (stat (Join packdir (TrimSpace lib)))) =
      false := by
    cases hb : libraries.all (fun lib => !IsNotExist (stat (Join packdir (TrimSpace lib))))
    · rfl
    · exfalso
      apply habsent
      rw [← hfilter, List.filter_eq_nil_iff]
      intro lib hmem
      have := (List.all_eq_true.mp hb) lib hmem
      simp [this]
  have h1 : IsNotExist (stat packdir) = false := by rw [hdir]; rfl
  have h3 : IsNotExist (stat (Join packdir (Base binary))) = false := by rw [hbin]; rfl
  have h2 : (decide (coreFile = []) || !IsNotExist (stat (Join packdir (Base coreFile)))) =
      true := by
    rcases hcore with h | h
    · simp [h]
    · rw [h]; simp [IsNotExist]
  rw [checkPackageContents_first_failure]
  simp only [referenceChecks, firstFailure, h1, h2, h3, hall, hfilter, Bool.not_false, if_true,
    Bool.false_eq_true, if_false]

/-- Witness of C4: five libraries of which the second and the fourth are
absent; both are named in the one error. -/
theorem checkPackageContents_lists_all_absent_witness :
    fiveLibraries.filter (fun lib => !pathExists twoAbsent (Join "pc".toList (TrimSpace lib))) =
      ["/lib64/libm.so.6".toList, "/usr/lib64/libfoo.so.1".toList] ∧
    checkPackageContents twoAbsent "pc".toList "/tmp/core.1".toList "/usr/bin/postgres".toList
        fiveLibraries =
      some "Missing Libraries!\n\t/lib64/libm.so.6\n\t/usr/lib64/libfoo.so.1\n".toList := by
  refine ⟨by decide, ?_⟩
  rw [checkPackageContents_lists_all_absent twoAbsent "pc".toList "/tmp/core.1".toList
    "/usr/bin/postgres".toList fiveLibraries (by decide) (Or.inr (by decide)) (by decide)
    (by decide) (by decide)]
  decide

/-- C4 as stated fails: the staging directory, the core file and the binary
`pc/postgres` are present and neither `/lib64/libc.so.6` nor
`/postgres/libx.so` was copied. `os.Stat` of `pc/postgres/libx.so` fails with
`ENOTDIR`, for which `os.IsNotExist` does not hold, and the error names
`/lib64/libc.so.6` only, although both libraries are absent. -/
theorem checkPackageContents_lists_all_absent_counterexample :
    fileInTheWay "pc".toList = .ok ∧ fileInTheWay "pc/core.1".toList = .ok ∧
    fileInTheWay "pc/postgres".toList = .ok ∧
    ["/lib64/libc.so.6".toList, "/postgres/libx.so".toList].filter
        (fun lib => !pathExists fileInTheWay (Join "pc".toList (TrimSpace lib))) =
      ["/lib64/libc.so.6".toList, "/postgres/libx.so".toList] ∧
    checkPackageContents fileInTheWay "pc".toList "/tmp/core.1".toList
        "/usr/bin/postgres".toList ["/lib64/libc.so.6".toList, "/postgres/libx.so".toList] =
      some "Missing Libraries!\n\t/lib64/libc.so.6\n".toList := by
  decide

/-! ## C5: the deep copy keeps the path -/

theorem Split_ne_nil (s : GoString) (sep : Char) : Split s sep ≠ [] := by
  induction s with
  | nil => simp [Split]
  | cons c cs ih =>
    unfold Split
    split
    · simp
    · split <;> simp

theorem Split_no_sep (s : GoString) (sep : Char) : ∀ p ∈ Split s sep, sep ∉ p := by
  induction s with
  | nil => simp [Split]
  | cons c cs ih =>
    intro p hp
    unfold Split at hp
    split at hp
    · simp only [List.mem_cons] at hp
      rcases hp with rfl | hp
      · simp
      · exact ih p hp
    · rename_i hc
      split at hp
      · rename_i hs
        exact absurd hs (Split_ne_nil cs sep)
      · rename_i q qs hs
        simp only [List.mem_cons] at hp
        rcases hp with rfl | hp
        · have hq : sep ∉ q := ih q (by rw [hs]; simp)
          simp only [List.mem_cons, not_or]
          exact ⟨fun e => hc e.symm, hq⟩
        · exact ih p (by rw [hs]; simp [hp])

theorem Split_of_no_sep (x : GoString) (sep : Char) (h : sep ∉ x) : Split x sep = [x] := by
  induction x with
  | nil => simp [Split]
  | cons c cs ih =>
    simp only [List.mem_cons, not_or] at h
    have hc : ¬ c = sep := fun e => h.1 e.symm
    simp [Split, hc, ih h.2]

theorem Split_append_sep (a b : GoString) (sep : Char) :
    Split (a ++ sep :: b) sep = Split a sep ++ Split b sep := by
  induction a with
  | nil => simp [Split]
  | cons c cs ih =>
    by_cases hc : c = sep
    · simp [Split, hc, ih]
    · simp only [List.cons_append, Split, hc, if_false, List.append_eq, ih]
      cases hs : Split cs sep with
      | nil => exact absurd hs (Split_ne_nil cs sep)
      | cons q qs => simp

theorem intercalate_cons_cons (sep x y : GoString) (ys : List GoString) :
    List.intercalate sep (x :: y :: ys) = x ++ sep ++ List.intercalate sep (y :: ys) := by
  simp [List.intercalate, List.intersperse]

theorem Split_intercalate (xs : List GoString) (sep : Char) (hne : xs ≠ [])
    (h : ∀ x ∈ xs, sep ∉ x) : Split (List.intercalate [sep] xs) sep = xs := by
  induction xs with
  | nil => exact absurd rfl hne
  | cons x rest ih =>
    cases rest with
    | nil =>
      simp only [List.intercalate, List.intersperse, List.flatten_cons, List.flatten_nil,
        List.append_nil]
      exact Split_of_no_sep x sep (h x (by simp))
    | cons y ys =>
      rw [intercalate_cons_cons]
      simp only [List.append_assoc, List.singleton_append]
      rw [Split_append_sep, Split_of_no_sep x sep (h x (by simp)),
        ih (by simp) (fun z hz => h z (List.mem_cons_of_mem _ hz))]
      rfl

theorem cleanStep_elem (r : Bool) (st : List GoString) (e : GoString) (h : IsElem e) :
    cleanStep r st e = e :: st := by
  obtain ⟨h1, _, h3, h4⟩ := h
  unfold cleanStep
  rw [if_neg (by rintro (h | h); exact h1 h; exact h3 h), if_neg h4]

theorem cleanStep_nil (r : Bool) (st : List GoString) : cleanStep r st [] = st := by
  simp [cleanStep]

theorem cleanStep_dotdot_dots (st : List GoString) (h : ∀ x ∈ st, x = "..".toList) :
    cleanStep false st "..".toList = "..".toList :: st := by
  unfold cleanStep
  rw [if_neg (by decide), if_pos rfl]
  cases st with
  | nil => rfl
  | cons top below =>
    have ht : top = "..".toList := h top (by simp)
    simp [ht]

theorem foldl_cleanStep_elems (r : Bool) (es st : List GoString) (h : ∀ e ∈ es, IsElem e) :
    es.foldl (cleanStep r) st = es.reverse ++ st := by
  induction es generalizing st with
  | nil => rfl
  | cons e rest ih =>
    simp only [List.foldl_cons, cleanStep_elem r st e (h e (by simp)),
      ih _ (fun x hx => h x (List.mem_cons_of_mem _ hx)), List.reverse_cons, List.append_assoc,
      List.singleton_append]

theorem foldl_cleanStep_dots (ds st : List GoString) (h : ∀ x ∈ ds, x = "..".toList)
    (hst : ∀ x ∈ st, x = "..".toList) :
    ds.foldl (cleanStep false) st = ds.reverse ++ st := by
  induction ds generalizing st with
  | nil => rfl
  | cons d rest ih =>
    have hd : d = "..".toList := h d (by simp)
    subst hd
    simp only [List.foldl_cons, cleanStep_dotdot_dots st hst]
    rw [ih _ (fun x hx => h x (List.mem_cons_of_mem _ hx))]
    · simp
    · intro x hx
      simp only [List.mem_cons] at hx
      rcases hx with rfl | hx
      · rfl
      · exact hst x hx

theorem validStack_nil (r : Bool) : ValidStack r [] :=
  ⟨[], [], rfl, by simp, by simp, fun _ => rfl⟩

theorem cleanStep_valid (r : Bool) (st : List GoString) (e : GoString)
    (hv : ValidStack r st) (he : '/' ∉ e) : ValidStack r (cleanStep r st e) := by
  obtain ⟨names, dots, rfl, hn, hd, hr⟩ := hv
  by_cases h1 : e = [] ∨ e = ".".toList
  · unfold cleanStep
    rw [if_pos h1]
    exact ⟨names, dots, rfl, hn, hd, hr⟩
  · by_cases h2 : e = "..".toList
    · subst h2
      cases names with
      | cons n ns =>
        have hne : n ≠ "..".toList := (hn n (by simp)).2.2.2
        unfold cleanStep
        rw [if_neg h1, if_pos rfl]
        simp only [List.cons_append, hne, ne_eq, not_false_eq_true, if_true]
        exact ⟨ns, dots, rfl, fun x hx => hn x (List.mem_cons_of_mem _ hx), hd, hr⟩
      | nil =>
        cases r with
        | true =>
          have : dots = [] := hr rfl
          subst this
          unfold cleanStep
          rw [if_neg h1, if_pos rfl]
          exact validStack_nil true
        | false =>
          simp only [List.nil_append]
          rw [cleanStep_dotdot_dots dots hd]
          refine ⟨[], "..".toList :: dots, rfl, by simp, ?_, by simp⟩
          intro x hx
          simp only [List.mem_cons] at hx
          rcases hx with rfl | hx
          · rfl
          · exact hd x hx
    · have hel : IsElem e := by
        refine ⟨fun h => h1 (Or.inl h), he, fun h => h1 (Or.inr h), h2⟩
      rw [cleanStep_elem r _ e hel]
      refine ⟨e :: names, dots, rfl, ?_, hd, hr⟩
      intro x hx
      simp only [List.mem_cons] at hx
      rcases hx with rfl | hx
      · exact hel
      · exact hn x hx

theorem foldl_cleanStep_valid (r : Bool) (es st : List GoString) (hv : ValidStack r st)
    (he : ∀ e ∈ es, '/' ∉ e) : ValidStack r (es.foldl (cleanStep r) st) := by
  induction es generalizing st with
  | nil => exact hv
  | cons e rest ih =>
    simp only [List.foldl_cons]
    exact ih _ (cleanStep_valid r st e hv (he e (by simp)))
      (fun x hx => he x (List.mem_cons_of_mem _ hx))

/-- Reading the kept elements again, from the first to the last, keeps them
all. -/
theorem foldl_cleanStep_rebuild (r : Bool) (st : List GoString) (hv : ValidStack r st) :
    st.reverse.foldl (cleanStep r) [] = st := by
  obtain ⟨names, dots, rfl, hn, hd, hr⟩ := hv
  rw [List.reverse_append, List.foldl_append]
  have h1 : dots.reverse.foldl (cleanStep r) [] = dots := by
    cases r with
    | true =>
      have : dots = [] := hr rfl
      subst this
      rfl
    | false =>
      rw [foldl_cleanStep_dots dots.reverse [] (fun x hx => hd x (List.mem_reverse.mp hx))
        (by simp)]
      simp
  rw [h1, foldl_cleanStep_elems r names.reverse dots
    (fun x hx => hn x (List.mem_reverse.mp hx))]
  simp

theorem validStack_no_slash (r : Bool) (st : List GoString) (hv : ValidStack r st) :
    ∀ x ∈ st, x ≠ [] ∧ '/' ∉ x := by
  obtain ⟨names, dots, rfl, hn, hd, _⟩ := hv
  intro x hx
  simp only [List.mem_append] at hx
  rcases hx with hx | hx
  · exact ⟨(hn x hx).1, (hn x hx).2.1⟩
  · rw [hd x hx]
    decide

theorem intercalate_cons_exists (sep x : GoString) (rest : List GoString) :
    ∃ t, List.intercalate sep (x :: rest) = x ++ t := by
  cases rest with
  | nil => exact ⟨[], by simp [List.intercalate, List.intersperse]⟩
  | cons y ys => exact ⟨sep ++ List.intercalate sep (y :: ys), by
      rw [intercalate_cons_cons, List.append_assoc]⟩

/-- The first character of a path written for kept elements that is not
rooted is not a slash. -/
theorem intercalate_head_not_slash (xs : List GoString) (hne : xs ≠ [])
    (h : ∀ x ∈ xs, x ≠ [] ∧ '/' ∉ x) :
    ∃ c t, List.intercalate ['/'] xs = c :: t ∧ c ≠ '/' := by
  cases xs with
  | nil => exact absurd rfl hne
  | cons x rest =>
    obtain ⟨t, ht⟩ := intercalate_cons_exists ['/'] x rest
    obtain ⟨hx1, hx2⟩ := h x (by simp)
    cases x with
    | nil => exact absurd rfl hx1
    | cons c cs =>
      refine ⟨c, cs ++ t, by rw [ht]; rfl, ?_⟩
      rintro rfl
      exact hx2 (by simp)

theorem renderPath_ne_nil (r : Bool) (st : List GoString) (hv : ValidStack r st) :
    renderPath r st ≠ [] := by
  unfold renderPath
  cases r with
  | true => simp
  | false =>
    by_cases hst : st = []
    · simp [hst]
    · simp only [Bool.false_eq_true, if_false, hst]
      obtain ⟨c, t, ht, _⟩ := intercalate_head_not_slash st.reverse (by simpa using hst)
        (fun x hx => validStack_no_slash false st hv x (List.mem_reverse.mp hx))
      rw [ht]
      simp

theorem renderPath_rooted (r : Bool) (st : List GoString) (hv : ValidStack r st) :
    decide ((renderPath r st).head? = some '/') = r := by
  unfold renderPath
  cases r with
  | true => simp
  | false =>
    by_cases hst : st = []
    · simp [hst]
    · simp only [Bool.false_eq_true, if_false, hst]
      obtain ⟨c, t, ht, hc⟩ := intercalate_head_not_slash st.reverse (by simpa using hst)
        (fun x hx => validStack_no_slash false st hv x (List.mem_reverse.mp hx))
      rw [ht]
      simp [hc]

/-- Cleaning a path written for kept elements keeps the same elements. -/
theorem renderPath_stack (r : Bool) (st : List GoString) (hv : ValidStack r st) :
    (Split (renderPath r st) '/').foldl (cleanStep r) [] = st := by
  have hno : ∀ x ∈ st.reverse, '/' ∉ x := fun x hx =>
    (validStack_no_slash r st hv x (List.mem_reverse.mp hx)).2
  unfold renderPath
  cases r with
  | true =>
    simp only [if_true]
    have e : Split ('/' :: List.intercalate ['/'] st.reverse) '/' =
        [] :: Split (List.intercalate ['/'] st.reverse) '/' := by
      simp [Split]
    rw [e, List.foldl_cons, cleanStep_nil]
    by_cases hst : st = []
    · subst hst
      simp [List.intercalate, Split, cleanStep_nil]
    · rw [Split_intercalate st.reverse '/' (by simpa using hst) hno]
      exact foldl_cleanStep_rebuild true st hv
  | false =>
    by_cases hst : st = []
    · subst hst
      decide
    · simp only [Bool.false_eq_true, if_false, hst]
      rw [Split_intercalate st.reverse '/' (by simpa using hst) hno]
      exact foldl_cleanStep_rebuild false st hv

theorem Clean_renderPath (r : Bool) (st : List GoString) (hv : ValidStack r st) :
    Clean (renderPath r st) = renderPath r st := by
  unfold Clean
  rw [if_neg (renderPath_ne_nil r st hv)]
  simp only [renderPath_rooted r st hv, renderPath_stack r st hv]

/-- Joining an element to a cleaned path reads the element on top of the
elements of the path. -/
theorem Join_renderPath (r : Bool) (st : List GoString) (hv : ValidStack r st) (b : GoString) :
    Join (renderPath r st) b = renderPath r ((Split b '/').foldl (cleanStep r) st) := by
  unfold Join
  rw [if_pos (renderPath_ne_nil r st hv)]
  unfold Clean
  rw [if_neg (by simp)]
  have hhead : (renderPath r st ++ '/' :: b).head? = (renderPath r st).head? := by
    cases hr : renderPath r st with
    | nil => exact absurd hr (renderPath_ne_nil r st hv)
    | cons c t => rfl
  simp only [hhead, renderPath_rooted r st hv, Split_append_sep, List.foldl_append,
    renderPath_stack r st hv]

/-- Joining an element to any non-empty path. -/
theorem Join_of_ne_nil (a b : GoString) (ha : a ≠ []) :
    Join a b = renderPath (decide (a.head? = some '/'))
      ((Split b '/').foldl (cleanStep (decide (a.head? = some '/')))
        ((Split a '/').foldl (cleanStep (decide (a.head? = some '/'))) [])) := by
  unfold Join
  rw [if_pos ha]
  unfold Clean
  rw [if_neg (by simp)]
  have hhead : (a ++ '/' :: b).head? = a.head? := by
    cases a with
    | nil => exact absurd rfl ha
    | cons c t => rfl
  simp only [hhead, Split_append_sep, List.foldl_append]

theorem rdropWhile_upToSlash (l b : GoString) (hb : '/' ∉ b) :
    (l ++ '/' :: b).rdropWhile (fun c => c != '/') = l ++ ['/'] := by
  have e : l ++ '/' :: b = (l ++ ['/']) ++ b := by simp
  rw [e, rdropWhile_append_of_pos _ _ b (by
    intro c hc
    simp only [bne_iff_ne, ne_eq]
    rintro rfl
    exact hb hc)]
  rw [List.rdropWhile_concat_neg]
  simp

theorem Base_after_slash (l b : GoString) (hb : '/' ∉ b) (hne : b ≠ []) :
    Base (l ++ '/' :: b) = b := by
  have hp : ∀ c ∈ b, (c != '/') = true := by
    intro c hc
    simp only [bne_iff_ne, ne_eq]
    rintro rfl
    exact hb hc
  have hstrip : (l ++ '/' :: b).rdropWhile (fun c => c == '/') = l ++ '/' :: b := by
    rw [List.rdropWhile_eq_self_iff]
    intro hl
    have hlast : (l ++ '/' :: b).getLast hl = b.getLast hne := by
      have e : l ++ '/' :: b = (l ++ ['/']) ++ b := by simp
      have h1 : (l ++ '/' :: b).getLast? = b.getLast? := by
        rw [e, List.getLast?_append_of_ne_nil _ hne]
      rw [List.getLast?_eq_getLast _ hl, List.getLast?_eq_getLast _ hne] at h1
      exact Option.some.inj h1
    rw [hlast]
    have := hp _ (List.getLast_mem hne)
    simpa using this
  have htake : (l ++ '/' :: b).rtakeWhile (fun c => c != '/') = b := by
    unfold List.rtakeWhile
    have e : (l ++ '/' :: b).reverse = b.reverse ++ ('/' :: l.reverse) := by simp
    rw [e, List.takeWhile_append_of_pos (fun c hc => hp c (List.mem_reverse.mp hc))]
    simp
  unfold Base
  rw [if_neg (by simp)]
  simp only [hstrip, htake, hne, if_false]

theorem Split_rooted_elems (xs : List GoString) (h : ∀ x ∈ xs, '/' ∉ x) (hne : xs ≠ []) :
    Split ('/' :: List.intercalate ['/'] xs) '/' = [] :: xs := by
  have := Split_append_sep [] (List.intercalate ['/'] xs) '/'
  simp only [List.nil_append] at this
  rw [this, Split_intercalate xs '/' hne h]
  rfl

theorem foldl_cleanStep_rooted_elems (r : Bool) (st0 rest : List GoString)
    (h : ∀ x ∈ rest, IsElem x) :
    (Split (renderPath true rest) '/').foldl (cleanStep r) st0 = rest ++ st0 := by
  unfold renderPath
  simp only [if_true]
  by_cases hr : rest = []
  · subst hr
    simp [List.intercalate, Split, cleanStep_nil]
  · rw [Split_rooted_elems rest.reverse (fun x hx => (h x (List.mem_reverse.mp hx)).2.1)
      (by simpa using hr)]
    rw [List.foldl_cons, cleanStep_nil, foldl_cleanStep_elems r rest.reverse st0
      (fun x hx => h x (List.mem_reverse.mp hx))]
    simp

theorem split_at_last_slash (src : GoString) (habs : src.head? = some '/')
    (hend : ∀ c, src.getLast? = some c → c ≠ '/') :
    ∃ l b, src = l ++ '/' :: b ∧ '/' ∉ b ∧ b ≠ [] := by
  have hmem : '/' ∈ src.reverse := by
    cases src with
    | nil => cases habs
    | cons c cs =>
      simp only [List.head?_cons, Option.some.injEq] at habs
      subst habs
      simp
  obtain ⟨rb, rl, hrev, hrb⟩ := List.eq_append_cons_of_mem hmem
  have hsrc : src = rl.reverse ++ '/' :: rb.reverse := by
    have := congrArg List.reverse hrev
    simpa using this
  refine ⟨rl.reverse, rb.reverse, hsrc, by simpa using hrb, ?_⟩
  intro hnil
  have hrbnil : rb = [] := by simpa using hnil
  subst hrbnil
  have hl : src.getLast? = some '/' := by
    rw [hsrc]; simp
  exact hend '/' hl rfl

theorem climbs_append (d : Nat) (xs ys : List GoString) (h : climbs d (xs ++ ys) = false) :
    climbs d xs = false := by
  induction xs generalizing d with
  | nil => rfl
  | cons e rest ih =>
    simp only [List.cons_append] at h
    unfold climbs at h ⊢
    split
    · rename_i h1
      rw [if_pos h1] at h
      exact ih d h
    · rename_i h1
      rw [if_neg h1] at h
      split
      · rename_i h2
        rw [if_pos h2] at h
        cases d with
        | zero => cases h
        | succ k => exact ih k h
      · rename_i h2
        rw [if_neg h2] at h
        exact ih (d + 1) h

/-- Where no `..` climbs above the root, reading the elements of a rooted
path on top of the elements of a directory gives the elements of the path,
read on their own, on top of those of the directory. -/
theorem foldl_cleanStep_noclimb (r : Bool) (es names st0 : List GoString)
    (hes : ∀ e ∈ es, '/' ∉ e) (hn : ∀ x ∈ names, IsElem x)
    (hc : climbs names.length es = false) :
    es.foldl (cleanStep r) (names ++ st0) = es.foldl (cleanStep true) names ++ st0 := by
  induction es generalizing names with
  | nil => rfl
  | cons e rest ih =>
    have hrest : ∀ x ∈ rest, '/' ∉ x := fun x hx => hes x (List.mem_cons_of_mem _ hx)
    unfold climbs at hc
    simp only [List.foldl_cons]
    by_cases h1 : e = [] ∨ e = ".".toList
    · rw [if_pos h1] at hc
      have e1 : ∀ (q : Bool) (st : List GoString), cleanStep q st e = st := by
        intro q st
        unfold cleanStep
        rw [if_pos h1]
      rw [e1, e1]
      exact ih names hrest hn hc
    · rw [if_neg h1] at hc
      by_cases h2 : e = "..".toList
      · rw [if_pos h2] at hc
        subst h2
        cases names with
        | nil => cases hc
        | cons n ns =>
          have hne : n ≠ "..".toList := (hn n (by simp)).2.2.2
          have e1 : ∀ (q : Bool) (st : List GoString),
              cleanStep q (n :: st) "..".toList = st := by
            intro q st
            unfold cleanStep
            rw [if_neg (by decide), if_pos rfl]
            show (if n ≠ "..".toList then st else _) = st
            rw [if_pos hne]
          rw [List.cons_append, e1, e1]
          exact ih ns hrest (fun x hx => hn x (List.mem_cons_of_mem _ hx)) hc
      · rw [if_neg h2] at hc
        have hel : IsElem e :=
          ⟨fun h => h1 (Or.inl h), hes e (by simp), fun h => h1 (Or.inr h), h2⟩
        rw [cleanStep_elem r _ e hel, cleanStep_elem true _ e hel, ← List.cons_append]
        apply ih (e :: names) hrest
        · intro x hx
          simp only [List.mem_cons] at hx
          rcases hx with rfl | hx
          · exact hel
          · exact hn x hx
        · exact hc

/-- The directory and the last element of a rooted path that does not end in
a slash. -/
theorem rooted_parts (src l b : GoString) (hsrc : src = l ++ '/' :: b)
    (habs : src.head? = some '/') (hb : '/' ∉ b) (hbne : b ≠ []) :
    (∀ x ∈ (Split l '/').foldl (cleanStep true) [], IsElem x) ∧
    Dir src = renderPath true ((Split l '/').foldl (cleanStep true) []) ∧
    Base src = b ∧ Split src '/' = Split l '/' ++ [b] ∧
    Clean src = renderPath true
      (cleanStep true ((Split l '/').foldl (cleanStep true) []) b) := by
  have hv := foldl_cleanStep_valid true (Split l '/') [] (validStack_nil true)
    (Split_no_sep l '/')
  have hsplit : Split src '/' = Split l '/' ++ [b] := by
    rw [hsrc, Split_append_sep, Split_of_no_sep b '/' hb]
  have hne : src ≠ [] := by
    rintro rfl
    cases habs
  refine ⟨?_, ?_, ?_, hsplit, ?_⟩
  · obtain ⟨names, dots, hst, hn, _, hr⟩ := hv
    have hd : dots = [] := hr rfl
    subst hd
    rw [List.append_nil] at hst
    rw [hst]
    exact hn
  · unfold Dir
    rw [hsrc, rdropWhile_upToSlash l b hb]
    unfold Clean
    rw [if_neg (by simp)]
    have hhead : (l ++ ['/']).head? = some '/' := by
      cases l with
      | nil => rfl
      | cons c cs =>
        rw [hsrc] at habs
        simpa using habs
    simp only [hhead, decide_True]
    have e : Split (l ++ ['/']) '/' = Split l '/' ++ [[]] := by
      rw [Split_append_sep]
      rfl
    rw [e, List.foldl_append]
    simp [cleanStep_nil]
  · rw [hsrc]
    exact Base_after_slash l b hb hbne
  · unfold Clean
    rw [if_neg hne]
    simp only [habs, decide_True, hsplit, List.foldl_append, List.foldl_cons, List.foldl_nil]

/-- For a rooted path that does not end in a slash and in which no `..`
climbs above the root, joining its directory and then its last element to a
directory is joining the path itself. -/
theorem Join_Dir_Base (dst src : GoString) (habs : src.head? = some '/')
    (hend : ∀ c, src.getLast? = some c → c ≠ '/')
    (hclimb : climbs 0 (Split src '/') = false) :
    Join (Join dst (Dir src)) (Base src) = Join dst src := by
  obtain ⟨l, b, hsrc, hb, hbne⟩ := split_at_last_slash src habs hend
  obtain ⟨hT, hdir, hbase, hsplit, hcl⟩ := rooted_parts src l b hsrc habs hb hbne
  have hsrcne : src ≠ [] := by
    rintro rfl
    cases habs
  have hvT : ValidStack true ((Split l '/').foldl (cleanStep true) []) :=
    ⟨_, [], by simp, hT, by simp, fun _ => rfl⟩
  by_cases hdst : dst = []
  · subst hdst
    have h1 : Join [] (Dir src) = Dir src := by
      unfold Join
      rw [if_neg (by simp), if_pos (by rw [hdir]; exact renderPath_ne_nil true _ hvT),
        hdir, Clean_renderPath true _ hvT]
    have h2 : Join [] src = Clean src := by
      unfold Join
      rw [if_neg (by simp), if_pos hsrcne]
    rw [h1, h2, hdir, Join_renderPath true _ hvT, hbase, Split_of_no_sep b '/' hb, hcl]
    rfl
  · have hv0 := foldl_cleanStep_valid (decide (dst.head? = some '/')) (Split dst '/') []
      (validStack_nil _) (Split_no_sep dst '/')
    rw [Join_of_ne_nil dst (Dir src) hdst, Join_of_ne_nil dst src hdst, hdir,
      foldl_cleanStep_rooted_elems _ _ _ hT]
    have hv1 : ValidStack (decide (dst.head? = some '/'))
        ((Split l '/').foldl (cleanStep true) [] ++
          (Split dst '/').foldl (cleanStep (decide (dst.head? = some '/'))) []) := by
      have := foldl_cleanStep_valid (decide (dst.head? = some '/'))
        (Split (renderPath true ((Split l '/').foldl (cleanStep true) [])) '/') _ hv0
        (Split_no_sep _ '/')
      rw [foldl_cleanStep_rooted_elems _ _ _ hT] at this
      exact this
    rw [Join_renderPath _ _ hv1, hbase, Split_of_no_sep b '/' hb, hsplit, List.foldl_append]
    have hcl2 : climbs 0 (Split l '/') = false := by
      rw [hsplit] at hclimb
      exact climbs_append 0 _ _ hclimb
    have := foldl_cleanStep_noclimb (decide (dst.head? = some '/')) (Split l '/') []
      ((Split dst '/').foldl (cleanStep (decide (dst.head? = some '/'))) [])
      (Split_no_sep l '/') (by simp) hcl2
    simp only [List.nil_append] at this
    rw [this]

theorem Trim_eq_self (s cutset : GoString) (hs : s ≠ [])
    (hfirst : ∀ c, s.head? = some c → c ∉ cutset)
    (hlast : ∀ c, s.getLast? = some c → c ∉ cutset) : Trim s cutset = s := by
  unfold Trim
  have h1 : List.dropWhile (fun c => decide (c ∈ cutset)) s = s := by
    cases s with
    | nil => rfl
    | cons a as =>
      have := hfirst a rfl
      simp [List.dropWhile_cons, this]
  rw [h1, List.rdropWhile_eq_self_iff]
  intro hl
  have := hlast (s.getLast hl) (List.getLast?_eq_getLast _ hl)
  simp [this]

/-- C5 (amended): for every staging directory `dst` and every source path
`src` that begins with `/` (a file directly under the root such as
`/libfoo.so` included), does not end in a slash or in white space, and in which
no `..` element climbs above the root, `copyFilePath` runs
`cp src join(dst, dir(src))`, and the path of the copy,
`join(join(dst, dir(src)), base(src))`, is `join(dst, src)`, the location
`checkPackageContents` tests for that library. -/
theorem copyFilePath_keeps_path (dst src : GoString) (habs : src.head? = some '/')
    (hend : ∀ c, src.getLast? = some c → c ≠ '/' ∧ isSpace c = false)
    (hclimb : climbs 0 (Split src '/') = false) :
    copyFilePath src dst = some ⟨src, Join dst (Dir src)⟩ ∧
    copiedPath ⟨src, Join dst (Dir src)⟩ = Join (Join dst (Dir src)) (Base src) ∧
    Join (Join dst (Dir src)) (Base src) = Join dst src ∧
    Join dst src = libraryLocation dst src := by
  have hsrcne : src ≠ [] := by
    rintro rfl
    cases habs
  obtain ⟨l, b, hsrc, hb, hbne⟩ := split_at_last_slash src habs (fun c hc => (hend c hc).1)
  obtain ⟨_, hdir, _, _, _⟩ := rooted_parts src l b hsrc habs hb hbne
  refine ⟨?_, rfl, Join_Dir_Base dst src habs (fun c hc => (hend c hc).1) hclimb, ?_⟩
  · have htrim : Trim src "\n ".toList = src := by
      apply Trim_eq_self src _ hsrcne
      · intro c hc
        rw [habs] at hc
        cases hc
        decide
      · intro c hc hmem
        have hsp := (hend c hc).2
        have : c = '\n' ∨ c = ' ' := by simpa using hmem
        rcases this with rfl | rfl <;> exact absurd hsp (by decide)
    have hidx : Index (Dir src) "/".toList ≠ -1 := by
      rw [hdir]
      simp [renderPath, Index, indexNat, List.isPrefixOf]
    unfold copyFilePath
    simp only [hidx, if_false, htrim]
  · unfold libraryLocation
    rw [TrimSpace_eq_self src hsrcne (by
      intro c hc
      rw [habs] at hc
      cases hc
      decide) (fun c hc => (hend c hc).2)]

/-- Witness of C5: `/usr/lib64/libfoo.so.1` copied into `./packcore-core.1`
ends up at `packcore-core.1/usr/lib64/libfoo.so.1`, `/libfoo.so` at
`packcore-core.1/libfoo.so`, and `/opt/gp/bin/../lib/libpq.so.5` at
`packcore-core.1/opt/gp/lib/libpq.so.5`, where it is looked for. -/
theorem copyFilePath_keeps_path_witness :
    copyFilePath "/usr/lib64/libfoo.so.1".toList "./packcore-core.1".toList =
      some ⟨"/usr/lib64/libfoo.so.1".toList, "packcore-core.1/usr/lib64".toList⟩ ∧
    copiedPath ⟨"/usr/lib64/libfoo.so.1".toList, "packcore-core.1/usr/lib64".toList⟩ =
      "packcore-core.1/usr/lib64/libfoo.so.1".toList ∧
    libraryLocation "./packcore-core.1".toList "/usr/lib64/libfoo.so.1".toList =
      "packcore-core.1/usr/lib64/libfoo.so.1".toList ∧
    copiedPath ⟨"/libfoo.so".toList, Join "./packcore-core.1".toList (Dir "/libfoo.so".toList)⟩ =
      "packcore-core.1/libfoo.so".toList ∧
    copiedPath ⟨"/opt/gp/bin/../lib/libpq.so.5".toList,
        Join "./packcore-core.1".toList (Dir "/opt/gp/bin/../lib/libpq.so.5".toList)⟩ =
      libraryLocation "./packcore-core.1".toList "/opt/gp/bin/../lib/libpq.so.5".toList := by
  have h := copyFilePath_keeps_path "./packcore-core.1".toList "/usr/lib64/libfoo.so.1".toList
    (by decide) (by decide) (by decide)
  have h2 := copyFilePath_keeps_path "./packcore-core.1".toList "/libfoo.so".toList
    (by decide) (by decide) (by decide)
  have h3 := copyFilePath_keeps_path "./packcore-core.1".toList
    "/opt/gp/bin/../lib/libpq.so.5".toList (by decide) (by decide) (by decide)
  refine ⟨?_, by decide, ?_, ?_, ?_⟩
  · rw [h.1]; decide
  · rw [← h.2.2.2]; decide
  · rw [h2.2.1, h2.2.2.1]; decide
  · rw [h3.2.1, h3.2.2.1, h3.2.2.2]

/-- C5 as stated fails for some absolute paths: for `/../x`, where `..`
climbs above the root, the copy goes to `d/x` while `join(d, src)`, the
location `checkPackageContents` tests, is `x`; for a path with a trailing
slash such as `/usr/lib64/` the formula of the claim gives
`d/usr/lib64/lib64`, not `join(d, src)`; and for a path that ends in a blank
`join(d, src)` is not the location that is tested. -/
theorem copyFilePath_counterexample :
    copyFilePath "/../x".toList "d".toList = some ⟨"/../x".toList, "d".toList⟩ ∧
    Join (Join "d".toList (Dir "/../x".toList)) (Base "/../x".toList) = "d/x".toList ∧
    Join "d".toList "/../x".toList = "x".toList ∧
    libraryLocation "d".toList "/../x".toList = "x".toList ∧
    Join (Join "d".toList (Dir "/usr/lib64/".toList)) (Base "/usr/lib64/".toList) =
      "d/usr/lib64/lib64".toList ∧
    Join "d".toList "/usr/lib64/".toList = "d/usr/lib64".toList ∧
    Join "d".toList "/lib64/libc.so.6 ".toList = "d/lib64/libc.so.6 ".toList ∧
    libraryLocation "d".toList "/lib64/libc.so.6 ".toList = "d/lib64/libc.so.6".toList := by
  decide

/-! ## C8, C9, C10: `findBinary` and `collect_core` -/

/-- C8: for a file-identification string with a single-quoted segment (at
least two single quotes), `findBinary` looks up the first space-separated word
of the text between the first and the second quote, trimmed of newlines and
spaces and without one trailing colon; it returns the result of the lookup, or
the error `Unable to find binary name <name>`. For the two `postgres`
strings the name is `postgres`. -/
theorem findBinary_looks_up_quoted_name (lookPath : GoString → Option GoString)
    (s : GoString) (h : 2 ≤ s.count quote) :
    findBinaryName s = some (binaryNameSpec s) ∧
    findBinary lookPath s =
      some (match lookPath (binaryNameSpec s) with
        | some ret => Except.ok ret
        | none => Except.error
            ("Unable to find binary name ".toList ++ binaryNameSpec s ++ "\n".toList)) ∧
    binaryNameSpec postgresCore = "postgres".toList ∧
    binaryNameSpec postgresArgsCore = "postgres".toList := by
  have e : findBinaryName s = some (binaryNameSpec s) := by
    rw [findBinaryName_eq, if_pos h]
  refine ⟨e, ?_, by decide, by decide⟩
  unfold findBinary
  rw [e]
  rcases hl : lookPath (binaryNameSpec s) with _ | ret <;> simp [hl]

/-- Witness of C8 at the `postgres` string, with a search path that resolves
`postgres` to `/usr/local/bin/postgres`. -/
theorem findBinary_looks_up_quoted_name_witness :
    2 ≤ postgresCore.count quote ∧
    findBinary (fun n => if n = "postgres".toList then some "/usr/local/bin/postgres".toList
      else none) postgresCore = some (Except.ok "/usr/local/bin/postgres".toList) := by
  refine ⟨by decide, ?_⟩
  have h := (findBinary_looks_up_quoted_name
    (fun n => if n = "postgres".toList then some "/usr/local/bin/postgres".toList else none)
    postgresCore (by decide)).2.1
  rw [h]
  decide

/-- When the flag `-binary` is empty and the core-file checks pass,
`collect_core` hands the trimmed file-identification string to `findBinary`
with no other test, and goes on to `packCoreFile` whatever `findBinary`
returns. -/
theorem collect_core_autodetect (w : CoreWorld) (core coreFile : GoString)
    (hcore : core ≠ []) (hstat : IsNotExist (w.stat core) = false)
    (habs : w.abs core = .ok coreFile)
    (hisCore : isCore (fileCmdOutputOf w coreFile) = true) :
    collect_core w core [] =
      match findBinary w.lookPath (fileCmdOutputOf w coreFile) with
      | none => none
      | some (.error _) => some (.packed coreFile [] (w.packCoreFile coreFile []))
      | some (.ok b) => some (.packed coreFile b (w.packCoreFile coreFile b)) := by
  simp [collect_core, hcore, hstat, habs, hisCore]

/-- With a `-binary` flag `collect_core` does not call `findBinary`: it always
returns, whatever the file-identification string is. -/
theorem collect_core_with_flag (w : CoreWorld) (core binary : GoString) (hb : binary ≠ []) :
    (collect_core w core binary).isSome = true := by
  unfold collect_core
  split
  · rfl
  · split
    · rfl
    · split
      · rfl
      · dsimp only
        split
        · rfl
        · split <;> rfl

/-- C10 (amended): the slice bounds of `findBinary` satisfy
`0 <= start <= end <= len` exactly when the text has at least two single
quotes, so `findBinary` returns (a name or an error) exactly then and fails
at run time otherwise; and `collect_core`, when no binary is given through the
`-binary` flag, calls `findBinary` on every text that contains `LSB core file`,
quoted clause or not: it fails at run time exactly when the text has fewer
than two single quotes. With a `-binary` flag it does not call `findBinary`
and always returns. -/
theorem findBinary_defined_iff_two_quotes :
    (∀ s : GoString, ∃ start stop, findBinaryBounds s = some (start, stop) ∧
      ((0 ≤ start ∧ start ≤ stop ∧ stop ≤ (s.length : Int)) ↔ 2 ≤ s.count quote)) ∧
    (∀ (lookPath : GoString → Option GoString) (s : GoString),
      (findBinary lookPath s).isSome = true ↔ 2 ≤ s.count quote) ∧
    (∀ (w : CoreWorld) (core coreFile : GoString), core ≠ [] →
      IsNotExist (w.stat core) = false →
      w.abs core = .ok coreFile → isCore (fileCmdOutputOf w coreFile) = true →
      ((collect_core w core []).isSome = true ↔
        2 ≤ (fileCmdOutputOf w coreFile).count quote)) ∧
    (∀ (w : CoreWorld) (core binary : GoString), binary ≠ [] →
      (collect_core w core binary).isSome = true) := by
  have hfb : ∀ (lookPath : GoString → Option GoString) (s : GoString),
      (findBinary lookPath s).isSome = true ↔ 2 ≤ s.count quote := by
    intro lookPath s
    unfold findBinary
    rw [findBinaryName_eq]
    by_cases h : 2 ≤ s.count quote
    · simp only [h, if_true, iff_true]
      cases lookPath (binaryNameSpec s) <;> rfl
    · simp [h]
  refine ⟨?_, hfb, ?_, collect_core_with_flag⟩
  · intro s
    rcases quote_cases quote s with h | ⟨pre, post, rfl, h1, h2⟩ | ⟨pre, mid, post, rfl, h1, h2⟩
    · refine ⟨0, -1, findBinaryBounds_none s h, ?_⟩
      rw [List.count_eq_zero_of_not_mem h]
      simp
    · refine ⟨_, _, findBinaryBounds_one pre post h1 h2, ?_⟩
      rw [count_quote_one quote pre post h1 h2]
      simp
    · refine ⟨_, _, findBinaryBounds_two pre mid post h1 h2, ?_⟩
      have := count_quote_two quote pre mid post
      simp only [this, iff_true, List.length_append, List.length_cons, Nat.cast_add,
        Nat.cast_succ]
      omega
  · intro w core coreFile hcore hstat habs hisCore
    rw [collect_core_autodetect w core coreFile hcore hstat habs hisCore, ← hfb w.lookPath]
    cases findBinary w.lookPath (fileCmdOutputOf w coreFile) with
    | none => rfl
    | some r => cases r <;> rfl

/-- Witness of C10: a core dump whose identification string has no quoted
clause passes `isCore`, and `collect_core` then fails at run time. -/
theorem findBinary_defined_iff_two_quotes_witness :
    isCore (fileCmdOutputOf (nothingOnPath unquotedCore) "/tmp/core.1234".toList) = true ∧
    unquotedCore.count quote = 0 ∧
    findBinaryBounds unquotedCore = some (0, -1) ∧
    collect_core (nothingOnPath unquotedCore) "/tmp/core.1234".toList [] = none := by
  have h := findBinary_defined_iff_two_quotes.2.2.1 (nothingOnPath unquotedCore)
    "/tmp/core.1234".toList "/tmp/core.1234".toList (by decide) rfl rfl (by decide)
  refine ⟨by decide, by decide, by decide, ?_⟩
  have hc : ¬ 2 ≤ (fileCmdOutputOf (nothingOnPath unquotedCore) "/tmp/core.1234".toList).count
      quote := by decide
  rw [← h] at hc
  simpa using hc

/-- C10 as stated fails in its second sentence: with the flag
`-binary postgres`, on a core dump whose identification string contains
`LSB core file` and has no quote, `collect_core` resolves the flag and calls
`packCoreFile`; `findBinary`, which fails at run time on that string, is not
called. -/
theorem findBinary_defined_iff_two_quotes_counterexample :
    isCore (fileCmdOutputOf (postgresOnPath unquotedCore) "/tmp/core.1234".toList) = true ∧
    (fileCmdOutputOf (postgresOnPath unquotedCore) "/tmp/core.1234".toList).count quote = 0 ∧
    findBinary (postgresOnPath unquotedCore).lookPath
      (fileCmdOutputOf (postgresOnPath unquotedCore) "/tmp/core.1234".toList) = none ∧
    collect_core (postgresOnPath unquotedCore) "/tmp/core.1234".toList "postgres".toList =
      some (.packed "/tmp/core.1234".toList "/usr/bin/postgres".toList none) := by
  decide

/-- C9 (the code departs from the claim): a core dump of `postgres` on a
machine whose search path does not resolve `postgres`, and no `-binary` flag.
`findBinary` returns its error, `collect_core` only logs it and calls
`packCoreFile` with the empty binary name; the same machine with the flag
`-binary postgres` stops with an error before `packCoreFile`. With the empty
binary name `checkPackageContents` looks for the binary at the staging
directory itself, and so accepts a package without a binary. -/
theorem collect_core_ignores_findBinary_error :
    findBinary (nothingOnPath postgresCore).lookPath postgresCore =
      some (Except.error "Unable to find binary name postgres\n".toList) ∧
    collect_core (nothingOnPath postgresCore) "/tmp/core.1234".toList [] =
      some (.packed "/tmp/core.1234".toList [] none) ∧
    collect_core (nothingOnPath postgresCore) "/tmp/core.1234".toList "postgres".toList =
      some (.failed "Unable to find binary specified on command line".toList) ∧
    checkPackageContents noBinaryStaging "pc".toList "/tmp/core.1234".toList [] [] = none := by
  refine ⟨by decide, ?_, ?_, by decide⟩
  · rw [collect_core_autodetect (nothingOnPath postgresCore) "/tmp/core.1234".toList
      "/tmp/core.1234".toList (by decide) rfl rfl (by decide)]
    decide
  · decide

/-! ## C6, C7: the environment around `gdb` -/

theorem Setenv_cases (env : Env) (key value : GoString) :
    (∃ e, Setenv env key value = .error e) ∨
    Setenv env key value = .ok (fun k => if k = key then some value else env k) := by
  unfold Setenv
  split
  · exact Or.inl ⟨_, rfl⟩
  · exact Or.inr rfl

/-- What the pair `setGDBEnv`, `unsetGDBEnv` does restore: when both return
no error, `os.Getenv` gives for every variable what it gave before. -/
theorem gdbEnv_roundtrip_getenv (p : Proc) (h1 : (setGDBEnv p).2 = none)
    (h2 : (unsetGDBEnv (setGDBEnv p).1).2 = none) (key : GoString) :
    Getenv (unsetGDBEnv (setGDBEnv p).1).1.env key = Getenv p.env key := by
  unfold setGDBEnv at h1 h2 ⊢
  dsimp only at h1 h2 ⊢
  rcases Setenv_cases (Unsetenv (Unsetenv (Unsetenv p.env "LD_LIBRARY_PATH".toList)
      "PYTHONHOME".toList) "PYTHONPATH".toList) "PATH".toList
      ("/usr/bin:".toList ++ Getenv (Unsetenv (Unsetenv (Unsetenv p.env
        "LD_LIBRARY_PATH".toList) "PYTHONHOME".toList) "PYTHONPATH".toList) "PATH".toList)
    with ⟨e, he⟩ | he
  · rw [he] at h1; cases h1
  · rw [he] at h2 ⊢
    unfold unsetGDBEnv at h2 ⊢
    dsimp only at h2 ⊢
    generalize hE : (fun k => if k = "PATH".toList then some ("/usr/bin:".toList ++
      Getenv (Unsetenv (Unsetenv (Unsetenv p.env "LD_LIBRARY_PATH".toList)
        "PYTHONHOME".toList) "PYTHONPATH".toList) "PATH".toList)
      else Unsetenv (Unsetenv (Unsetenv p.env "LD_LIBRARY_PATH".toList)
        "PYTHONHOME".toList) "PYTHONPATH".toList k : Env) = E at h2 ⊢
    rcases Setenv_cases E "LD_LIBRARY_PATH".toList (Getenv p.env "LD_LIBRARY_PATH".toList)
      with ⟨e, he1⟩ | he1
    · rw [he1] at h2; cases h2
    · rw [he1] at h2 ⊢
      dsimp only at h2 ⊢
      rcases Setenv_cases (fun k => if k = "LD_LIBRARY_PATH".toList then
          some (Getenv p.env "LD_LIBRARY_PATH".toList) else E k) "PYTHONHOME".toList
          (Getenv (Unsetenv p.env "LD_LIBRARY_PATH".toList) "PYTHONHOME".toList)
        with ⟨e, he2⟩ | he2
      · rw [he2] at h2; cases h2
      · rw [he2] at h2 ⊢
        dsimp only at h2 ⊢
        rcases Setenv_cases (fun k => if k = "PYTHONHOME".toList then
            some (Getenv (Unsetenv p.env "LD_LIBRARY_PATH".toList) "PYTHONHOME".toList)
            else if k = "LD_LIBRARY_PATH".toList then
              some (Getenv p.env "LD_LIBRARY_PATH".toList) else E k) "PYTHONPATH".toList
            (Getenv (Unsetenv (Unsetenv p.env "LD_LIBRARY_PATH".toList) "PYTHONHOME".toList)
              "PYTHONPATH".toList)
          with ⟨e, he3⟩ | he3
        · rw [he3] at h2; cases h2
        · rw [he3] at h2 ⊢
          dsimp only at h2 ⊢
          rcases Setenv_cases (fun k => if k = "PYTHONPATH".toList then
              some (Getenv (Unsetenv (Unsetenv p.env "LD_LIBRARY_PATH".toList)
                "PYTHONHOME".toList) "PYTHONPATH".toList)
              else if k = "PYTHONHOME".toList then
                some (Getenv (Unsetenv p.env "LD_LIBRARY_PATH".toList) "PYTHONHOME".toList)
              else if k = "LD_LIBRARY_PATH".toList then
                some (Getenv p.env "LD_LIBRARY_PATH".toList) else E k) "PATH".toList
              (Getenv (Unsetenv (Unsetenv (Unsetenv p.env "LD_LIBRARY_PATH".toList)
                "PYTHONHOME".toList) "PYTHONPATH".toList) "PATH".toList)
            with ⟨e, he4⟩ | he4
          · rw [he4] at h2; cases h2
          · rw [he4]
            dsimp only
            subst hE
            have d1 : "PYTHONHOME".toList ≠ "LD_LIBRARY_PATH".toList := by decide
            have d2 : "PYTHONPATH".toList ≠ "LD_LIBRARY_PATH".toList := by decide
            have d3 : "PYTHONPATH".toList ≠ "PYTHONHOME".toList := by decide
            have d4 : "PATH".toList ≠ "LD_LIBRARY_PATH".toList := by decide
            have d5 : "PATH".toList ≠ "PYTHONHOME".toList := by decide
            have d6 : "PATH".toList ≠ "PYTHONPATH".toList := by decide
            by_cases k1 : key = "PATH".toList
            · subst k1
              simp only [Getenv, Unsetenv, if_true, if_neg d4, if_neg d5, if_neg d6]
            · by_cases k2 : key = "PYTHONPATH".toList
              · subst k2
                simp only [Getenv, Unsetenv, if_true, if_neg d2, if_neg d3, if_neg k1]
              · by_cases k3 : key = "PYTHONHOME".toList
                · subst k3
                  simp only [Getenv, Unsetenv, if_true, if_neg d1, if_neg k1, if_neg k2]
                · by_cases k4 : key = "LD_LIBRARY_PATH".toList
                  · subst k4
                    simp only [Getenv, Unsetenv, if_true, if_neg k1, if_neg k2, if_neg k3]
                  · simp only [Getenv, Unsetenv, if_neg k1, if_neg k2, if_neg k3, if_neg k4]

/-- C6 (the code departs from the claim): `PYTHONHOME` and `PYTHONPATH` are
not set. `setGDBEnv` and `unsetGDBEnv` both return no error; afterwards
`LD_LIBRARY_PATH`, `PATH` and `HOME` have their old values, but `PYTHONHOME`
and `PYTHONPATH` are set, to the empty string. -/
theorem gdbEnv_roundtrip_sets_unset_variables :
    (setGDBEnv sampleProc).2 = none ∧
    (unsetGDBEnv (setGDBEnv sampleProc).1).2 = none ∧
    sampleEnv "PYTHONHOME".toList = none ∧
    (unsetGDBEnv (setGDBEnv sampleProc).1).1.env "PYTHONHOME".toList = some [] ∧
    sampleEnv "PYTHONPATH".toList = none ∧
    (unsetGDBEnv (setGDBEnv sampleProc).1).1.env "PYTHONPATH".toList = some [] ∧
    (unsetGDBEnv (setGDBEnv sampleProc).1).1.env "LD_LIBRARY_PATH".toList =
      sampleEnv "LD_LIBRARY_PATH".toList ∧
    (unsetGDBEnv (setGDBEnv sampleProc).1).1.env "PATH".toList = sampleEnv "PATH".toList ∧
    (unsetGDBEnv (setGDBEnv sampleProc).1).1.env "HOME".toList = sampleEnv "HOME".toList := by
  decide

/-- The number of calls of `unsetGDBEnv` in the case `usegdb`, once
`setGDBEnv` has succeeded: one, except when the resolver succeeds and the write
of `gdb_output` fails; then none. -/
theorem packCoreFileGdbCase_restores (stat : GoString → Bool) (ign : Bool)
    (packDir : GoString) (gdb : CmdOutput) (writeErr : Option GoString) (p : Proc)
    (hset : (setGDBEnv p).2 = none) :
    (packCoreFileGdbCase stat ign packDir gdb writeErr p).restores =
      if (getLibraryListWithGDB stat ign gdb).err = none ∧ writeErr ≠ none then 0 else 1 := by
  unfold packCoreFileGdbCase
  rcases hs : setGDBEnv p with ⟨p1, e1⟩
  rw [hs] at hset
  simp only at hset
  subst hset
  simp only
  rcases hr : (getLibraryListWithGDB stat ign gdb).err with _ | err
  · rcases writeErr with _ | werr
    · simp only [ne_eq, not_true_eq_false, and_false, if_false]
      rcases hu : unsetGDBEnv p1 with ⟨p2, e2⟩
      cases e2 <;> rfl
    · simp
  · simp

/-- C7 (the code departs from the claim): `gdb` succeeds, no library is
missing, and writing `gdb_output` fails. The case returns without a call of
`unsetGDBEnv`: `LD_LIBRARY_PATH` is still unset and `PATH` still has `/usr/bin:`
in front. On the three other paths `unsetGDBEnv` is called once. -/
theorem packCoreFile_write_failure_skips_restore :
    (packCoreFileGdbCase (fun _ => true) false "./packcore-core.1".toList ⟨gdbSample, none⟩
      (some "disk full".toList) sampleProc).restores = 0 ∧
    (packCoreFileGdbCase (fun _ => true) false "./packcore-core.1".toList ⟨gdbSample, none⟩
      (some "disk full".toList) sampleProc).exit =
      .returned "Failed to write file packcore-core.1/gcc_output (GDB command output)\n".toList ∧
    (packCoreFileGdbCase (fun _ => true) false "./packcore-core.1".toList ⟨gdbSample, none⟩
      (some "disk full".toList) sampleProc).proc.env "LD_LIBRARY_PATH".toList = none ∧
    (packCoreFileGdbCase (fun _ => true) false "./packcore-core.1".toList ⟨gdbSample, none⟩
      (some "disk full".toList) sampleProc).proc.env "PATH".toList =
      some "/usr/bin:/usr/local/bin:/usr/bin:/bin".toList ∧
    (packCoreFileGdbCase (fun _ => true) false "./packcore-core.1".toList
      ⟨[], some "exit status 1".toList⟩ none sampleProc).restores = 1 ∧
    (packCoreFileGdbCase (fun _ => false) false "./packcore-core.1".toList ⟨gdbSample, none⟩
      none sampleProc).restores = 1 ∧
    (packCoreFileGdbCase (fun _ => true) false "./packcore-core.1".toList ⟨gdbSample, none⟩
      none sampleProc).restores = 1 := by
  decide

end Packcore
